import Mathlib

/-!
Verification of the exception-handling / cleanup-scope lowering subsystem
declared in gen/trycatchfinally.h (LDC).  The repository ships only the
header; every method body is modelled from the specification document
(spec.md) that accompanies it, as indicated by the doc comments below.
Basic blocks and local variables are identified by natural-number handles
managed by a fresh-id counter, mirroring the arena-of-blocks design note.
-/

namespace TCF

/-- A handle to a basic block of the function being generated. -/
abbrev BlockId := Nat

/-- A handle to a stack-slot variable (alloca) of the function. -/
abbrev VarId := Nat

/-- Represents a position on the stack of currently active cleanup scopes
(gen/trycatchfinally.h line 34: `using CleanupCursor = size_t`). -/
abbrev CleanupCursor := Nat

/-- The terminator instruction of a basic block in the model. -/
inductive Terminator where
  /-- The block has not been terminated yet. -/
  | unterminated : Terminator
  /-- Unconditional branch to a block. -/
  | br (target : BlockId) : Terminator
  /-- Dispatch on the loaded value of a branch-selector variable:
  selector value `i` branches to `targets[i]`. -/
  | switchSelector (selVar : VarId) (targets : List BlockId) : Terminator
  /-- Call to the resume-unwind runtime entry point. -/
  | resumeUnwind : Terminator
deriving DecidableEq, Repr

/-- The mutable per-function code-generation state touched by this
subsystem: block terminators, branch-selector tag stores, metadata tags on
cloned funclet blocks, and a fresh-handle counter.  Newest writes are at
the head of each list. -/
structure FuncState where
  terms : List (BlockId × Terminator)
  tagStores : List (BlockId × VarId × Nat)
  cloneMeta : List (BlockId × Option BlockId × Option VarId)
  nextId : Nat
deriving DecidableEq, Repr

/-- The current terminator of a block (latest write wins). -/
def FuncState.lookupTerm (f : FuncState) (b : BlockId) : Terminator :=
  match f.terms.find? (fun p => p.1 = b) with
  | some p => p.2
  | none => Terminator.unterminated

/-- Set (or overwrite) the terminator of a block. -/
def FuncState.setTerm (f : FuncState) (b : BlockId) (t : Terminator) : FuncState :=
  { f with terms := (b, t) :: f.terms }

/-- Record a store of integer `tag` to selector variable `v` at the end of
block `b` (before its terminator). -/
def FuncState.storeTag (f : FuncState) (b : BlockId) (v : VarId) (tag : Nat) : FuncState :=
  { f with tagStores := (b, v, tag) :: f.tagStores }

/-- Allocate one fresh handle. -/
def FuncState.fresh (f : FuncState) : Nat × FuncState :=
  (f.nextId, { f with nextId := f.nextId + 1 })

/-- Allocate `n` fresh block handles. -/
def FuncState.freshN (f : FuncState) (n : Nat) : List BlockId × FuncState :=
  ((List.range n).map (fun i => f.nextId + i), { f with nextId := f.nextId + n })

/-- Describes a particular way to leave a cleanup scope and continue
execution with another one (gen/trycatchfinally.h lines 125-139). -/
structure CleanupExitTarget where
  /-- The target basic block to branch to after running the cleanup. -/
  branchTarget : BlockId
  /-- The basic blocks that want to continue with this target after running
  the cleanup. -/
  sourceBlocks : List BlockId
  /-- MSVC: the basic blocks that are executed when going this route. -/
  cleanupBlocks : List BlockId
deriving DecidableEq, Repr

/-- A scope that requires a piece of cleanup code to be run whenever it is
left (gen/trycatchfinally.h lines 95-148).  `branchSelector = none` with an
empty `exitTargets` is the Unused state, with a singleton list the
SingleTarget state; `branchSelector = some sel` is the Multiplexed state. -/
structure CleanupScope where
  blocks : List BlockId
  branchSelector : Option VarId
  exitTargets : List CleanupExitTarget
deriving DecidableEq, Repr, Inhabited

/-- Constructor `CleanupScope(beginBlock, endBlock)`. -/
def CleanupScope.make (beginB endB : BlockId) : CleanupScope :=
  ⟨[beginB, endB], none, []⟩

/-- `beginBlock` accessor: front of `blocks` (header line 111). -/
def CleanupScope.beginBlock (s : CleanupScope) : BlockId := s.blocks.headD 0

/-- `endBlock` accessor: back of `blocks` (header line 112). -/
def CleanupScope.endBlock (s : CleanupScope) : BlockId := s.blocks.getLastD 0

/-- Index of the exit target whose branch target is `cw`, if any. -/
def findTargetIdx (cw : BlockId) : List CleanupExitTarget → Option Nat
  | [] => none
  | t :: ts =>
    if t.branchTarget = cw then some 0 else (findTargetIdx cw ts).map (fun i => i + 1)

/-- Record one more predecessor block on the exit target at index `i`. -/
def addSourceAt : List CleanupExitTarget → Nat → BlockId → List CleanupExitTarget
  | [], _, _ => []
  | t :: ts, 0, b => ⟨t.branchTarget, b :: t.sourceBlocks, t.cleanupBlocks⟩ :: ts
  | t :: ts, i + 1, b => t :: addSourceAt ts i b

/-- Modelled from the spec: `CleanupScope::run` (body in the missing
trycatchfinally.cpp; spec section 4.1).  State machine
Unused -> SingleTarget -> Multiplexed.  In Unused, wires an unconditional
branch from the end block to `continueWith`, records the predecessor and
returns the begin block.  In SingleTarget with the same target it only
records the predecessor; with a different target it promotes to
Multiplexed: creates the selector variable, rewrites the end block's
terminator into a dispatch on the selector, retroactively inserts tag
stores in every previously recorded predecessor and tags the new target.
In Multiplexed an existing target gets a predecessor recording plus tag
store, a new target extends the dispatch with its own tag. -/
def CleanupScope.run (s : CleanupScope) (f : FuncState)
    (sourceBlock continueWith : BlockId) : CleanupScope × FuncState × BlockId :=
  match s.exitTargets, s.branchSelector with
  | [], _ =>
    (⟨s.blocks, s.branchSelector, [⟨continueWith, [sourceBlock], []⟩]⟩,
     f.setTerm s.endBlock (Terminator.br continueWith), s.beginBlock)
  | t :: ts, none =>
    if t.branchTarget = continueWith then
      (⟨s.blocks, none, ⟨t.branchTarget, sourceBlock :: t.sourceBlocks, t.cleanupBlocks⟩ :: ts⟩,
       f, s.beginBlock)
    else
      let sel := f.nextId
      let f1 : FuncState := { f with nextId := f.nextId + 1 }
      let f2 := t.sourceBlocks.foldl (fun g b => g.storeTag b sel 0) f1
      let f3 := f2.storeTag sourceBlock sel 1
      let f4 := f3.setTerm s.endBlock
        (Terminator.switchSelector sel [t.branchTarget, continueWith])
      (⟨s.blocks, some sel, [t, ⟨continueWith, [sourceBlock], []⟩]⟩, f4, s.beginBlock)
  | t :: ts, some sel =>
    match findTargetIdx continueWith (t :: ts) with
    | some i =>
      (⟨s.blocks, some sel, addSourceAt (t :: ts) i sourceBlock⟩,
       f.storeTag sourceBlock sel i, s.beginBlock)
    | none =>
      (⟨s.blocks, some sel, (t :: ts) ++ [⟨continueWith, [sourceBlock], []⟩]⟩,
       (f.storeTag sourceBlock sel (t :: ts).length).setTerm s.endBlock
         (Terminator.switchSelector sel (((t :: ts).map CleanupExitTarget.branchTarget)
           ++ [continueWith])),
       s.beginBlock)

/-- Modelled from the spec: the per-target part of `CleanupScope::runCopying`
(body in the missing trycatchfinally.cpp; spec section 4.1).  Looks for an
existing exit target with the requested continuation; if found, only
records the predecessor and returns the entry of that target's existing
copy.  Otherwise clones the scope's blocks, points the clone's terminator
at `continueWith`, tags the clone with the funclet metadata and records a
new exit target owning the clone. -/
def runCopyingAux (bl : List BlockId) (src cw : BlockId)
    (unwindTo : Option BlockId) (funclet : Option VarId) :
    List CleanupExitTarget → FuncState →
    List CleanupExitTarget × FuncState × BlockId
  | [], f =>
    let copy := (f.freshN bl.length).1
    let f1 := (f.freshN bl.length).2
    let f2 := f1.setTerm (copy.getLastD 0) (Terminator.br cw)
    let f3 : FuncState :=
      { f2 with cloneMeta := (copy.headD 0, unwindTo, funclet) :: f2.cloneMeta }
    ([⟨cw, [src], copy⟩], f3, copy.headD 0)
  | t :: ts, f =>
    if t.branchTarget = cw then
      (⟨t.branchTarget, src :: t.sourceBlocks, t.cleanupBlocks⟩ :: ts,
       f, t.cleanupBlocks.headD 0)
    else
      let r := runCopyingAux bl src cw unwindTo funclet ts f
      (t :: r.1, r.2.1, r.2.2)

/-- Modelled from the spec: `CleanupScope::runCopying` (body in the missing
trycatchfinally.cpp; spec section 4.1).  Produces one physical copy of the
cleanup blocks per distinct continuation target, reusing the copy on
repeated requests for the same target. -/
def CleanupScope.runCopying (s : CleanupScope) (f : FuncState)
    (sourceBlock continueWith : BlockId)
    (unwindTo : Option BlockId := none) (funclet : Option VarId := none) :
    CleanupScope × FuncState × BlockId :=
  let r := runCopyingAux s.blocks sourceBlock continueWith unwindTo funclet s.exitTargets f
  (⟨s.blocks, s.branchSelector, r.1⟩, r.2.1, r.2.2)

/-- Fold a list of (sourceBlock, continueWith) requests through
`CleanupScope.run`. -/
def runMany (p : CleanupScope × FuncState) (rs : List (BlockId × BlockId)) :
    CleanupScope × FuncState :=
  rs.foldl (fun q r =>
    let o := CleanupScope.run q.1 q.2 r.1 r.2
    (o.1, o.2.1)) p

/-- Fold requests through `CleanupScope.run`, collecting the returned
entry blocks. -/
def runManyRets (p : CleanupScope × FuncState) (rs : List (BlockId × BlockId)) :
    CleanupScope × FuncState × List BlockId :=
  match rs with
  | [] => (p.1, p.2, [])
  | r :: rest =>
    let o := CleanupScope.run p.1 p.2 r.1 r.2
    let q := runManyRets (o.1, o.2.1) rest
    (q.1, q.2.1, o.2.2 :: q.2.2)

/-- Fold requests through `CleanupScope.runCopying`. -/
def runCopyingMany (p : CleanupScope × FuncState) (rs : List (BlockId × BlockId)) :
    CleanupScope × FuncState :=
  rs.foldl (fun q r =>
    let o := CleanupScope.runCopying q.1 q.2 r.1 r.2
    (o.1, o.2.1)) p

/-- Keeps track of source and target label of a goto
(gen/trycatchfinally.h lines 156-170).  Labels and locations are opaque
identifiers. -/
structure GotoJump where
  sourceLoc : Nat
  sourceBlock : BlockId
  tentativeTarget : BlockId
  targetLabel : Nat
deriving DecidableEq, Repr

/-- Information to branch to a catch clause if it matches
(gen/trycatchfinally.h lines 47-56).  `branchWeights` is the opaque PGO
hint pass-through. -/
structure CatchBlock where
  classInfoPtr : Nat
  bodyBB : BlockId
  branchWeights : Option Nat
deriving DecidableEq, Repr

/-- One catch clause of a TryCatchStatement as far as this subsystem reads
it: the ClassInfo reference of the caught type, the chain of class ids of
that type and its base classes, and the already-emitted handler body
entry. -/
structure CatchClause where
  classInfoPtr : Nat
  typeAncestors : List Nat
  bodyBB : BlockId
  branchWeights : Option Nat
deriving DecidableEq, Repr

/-- The part of a front-end TryCatchStatement consumed here. -/
structure TryCatchStatement where
  catches : List CatchClause
deriving DecidableEq, Repr

/-- The class id of the standard exception root class. -/
def exceptionClassId : Nat := 0

/-- Whether a catch clause matches throwables outside the standard
exception hierarchy: the standard exception root does not occur in the
caught type's base-class chain. -/
def CatchClause.catchesNonException (c : CatchClause) : Bool :=
  !(c.typeAncestors.contains exceptionClassId)

/-- Represents a scope for a TryCatchStatement
(gen/trycatchfinally.h lines 41-79). -/
structure TryCatchScope where
  cleanupScope : CleanupCursor
  catchesNonExceptions : Bool
  catchBlocks : List CatchBlock
deriving DecidableEq, Repr

/-- Modelled from the spec: the `TryCatchScope` constructor (body in the
missing trycatchfinally.cpp; spec sections 3 and 4.2).  Records the
cleanup cursor active at try-entry, emits the catch bodies (their entry
blocks are taken from the statement) into the ordered descriptor list, and
precomputes whether any handler matches a throwable category broader than
the standard exception root. -/
def TryCatchScope.make (stmt : TryCatchStatement) (cursor : CleanupCursor) :
    TryCatchScope :=
  ⟨cursor,
   stmt.catches.any CatchClause.catchesNonException,
   stmt.catches.map (fun c => ⟨c.classInfoPtr, c.bodyBB, c.branchWeights⟩)⟩

/-- Accessor `getCleanupScope` (header line 63). -/
def TryCatchScope.getCleanupScope (s : TryCatchScope) : CleanupCursor :=
  s.cleanupScope

/-- Accessor `isCatchingNonExceptions` (header line 64): returns the
precomputed flag. -/
def TryCatchScope.isCatchingNonExceptions (s : TryCatchScope) : Bool :=
  s.catchesNonExceptions

/-- Accessor `getCatchBlocks` (header line 67). -/
def TryCatchScope.getCatchBlocks (s : TryCatchScope) : List CatchBlock :=
  s.catchBlocks

/-- The descending list of cleanup depths `[d, d-1, ..., tgt+1]`
(empty when `d <= tgt`). -/
def descRange (tgt : Nat) : Nat → List Nat
  | 0 => []
  | d + 1 => if tgt ≤ d then (d + 1) :: descRange tgt d else []

/-- Write `v` at index `i` of a list, extending it with `pad` as needed. -/
def setExt (pad : α) : List α → Nat → α → List α
  | [], 0, v => [v]
  | [], i + 1, v => pad :: setExt pad [] i v
  | _ :: xs, 0, v => v :: xs
  | x :: xs, i + 1, v => x :: setExt pad xs i v

/-- Modelled from the spec: the cleanup-running chain at the heart of the
internal `runCleanups(sourceScope, targetScope, continueWith)` (body in
the missing trycatchfinally.cpp; spec section 4.4).  The first argument of
the recursion is the cursor still to be processed: for each cleanup depth
from the source cursor down to `tgt + 1`, runs the scope at that depth
with the previous scope's end block as predecessor and with the entry of
the next-outer scope (finally `cw`) as continuation.  Returns the updated
scope stack and function state together with a trace of
(depth visited, continuation passed) pairs in execution order. -/
def runChain (tgt : Nat) (cw : BlockId) :
    Nat → List CleanupScope → FuncState → BlockId →
    List CleanupScope × FuncState × List (Nat × BlockId)
  | 0, scopes, f, _ => (scopes, f, [])
  | i + 1, scopes, f, srcBlock =>
    if tgt ≤ i then
      let scope := scopes.getD i default
      let next : BlockId :=
        if i = tgt then cw else (scopes.getD (i - 1) default).beginBlock
      let r := CleanupScope.run scope f srcBlock next
      let rest := runChain tgt cw i (scopes.set i r.1) r.2.1 scope.endBlock
      (rest.1, rest.2.1, (i + 1, next) :: rest.2.2)
    else (scopes, f, [])

/-- The structure of the code emitted for a landing pad: a chain of
exception-type tests, cleanup executions, and a final resume-unwind
branch. -/
inductive PadCode where
  /-- Test the thrown type against `classInfo`; on match branch to
  `handler`, otherwise continue with `next`. -/
  | test (classInfo : Nat) (handler : BlockId) (next : PadCode) : PadCode
  /-- Run the cleanup scope at the given depth, then continue. -/
  | cleanup (depth : Nat) (next : PadCode) : PadCode
  /-- Branch to the resume-unwind block. -/
  | resume (b : BlockId) : PadCode
deriving DecidableEq, Repr

/-- Prepend the cleanup executions for depths `d, d-1, ..., tgt+1`. -/
def cleanupsThen (d tgt : Nat) (k : PadCode) : PadCode :=
  (descRange tgt d).foldr (fun i acc => PadCode.cleanup i acc) k

/-- Prepend the type tests for the given catch descriptors, in declared
order. -/
def testsThen (cbs : List CatchBlock) (k : PadCode) : PadCode :=
  cbs.foldr (fun cb acc => PadCode.test cb.classInfoPtr cb.bodyBB acc) k

/-- Modelled from the spec: the dispatch structure built by
`emitLandingPad` (body in the missing trycatchfinally.cpp; spec section
4.4).  The try/catch scopes are passed innermost first; `d` is the cleanup
depth of the throw site.  Runs the cleanups between the current depth and
the nearest enclosing try/catch scope's recorded depth, tests that scope's
catch descriptors in declared order, and on no match repeats one try/catch
level further out; with no try/catch scope left, runs the remaining
cleanups and branches to the resume-unwind block. -/
def emitLandingPadCode (resumeB : BlockId) :
    List TryCatchScope → Nat → PadCode
  | [], d => cleanupsThen d 0 (PadCode.resume resumeB)
  | tc :: rest, d =>
    cleanupsThen d tc.cleanupScope
      (testsThen tc.catchBlocks (emitLandingPadCode resumeB rest tc.cleanupScope))

/-- Execution of landing-pad code for a thrown object whose type satisfies
the match predicate `m`: the list of cleanup depths run, in order, and the
block finally reached (a handler or the resume-unwind block). -/
def evalPad (m : Nat → Bool) : PadCode → List Nat × BlockId
  | PadCode.test ci h next => if m ci then ([], h) else evalPad m next
  | PadCode.cleanup i next =>
    let r := evalPad m next
    (i :: r.1, r.2)
  | PadCode.resume b => ([], b)

/-- The claim-level description of landing-pad dispatch, written from the
spec's words: at each try/catch level the first matching descriptor (in
declared order) wins after the cleanups down to that level have run;
otherwise dispatch repeats one level out; with no level left, all
remaining cleanups run and the resume-unwind block is reached. -/
def dispatchSem (m : Nat → Bool) :
    List TryCatchScope → Nat → BlockId → List Nat × BlockId
  | [], d, rB => (descRange 0 d, rB)
  | tc :: rest, d, rB =>
    let cl := descRange tc.cleanupScope d
    match tc.catchBlocks.find? (fun cb => m cb.classInfoPtr) with
    | some cb => (cl, cb.bodyBB)
    | none =>
      let r := dispatchSem m rest tc.cleanupScope rB
      (cl ++ r.1, r.2)

/-- Manages both try/catch and cleanup scopes
(gen/trycatchfinally.h lines 185-310).  `cleanupScopes[i]` contains the
information to go from cursor `i + 1` to cursor `i`; the try/catch stack
grows at the back (the last element is the innermost scope).  The pending
gotos and the landing-pad cache are kept per cleanup depth; both lists are
extended on demand.  `currentBlock` is the insertion point: the block any
branch-emitting operation terminates. -/
structure TryCatchFinallyScopes where
  cleanupScopes : List CleanupScope
  tryCatchScopes : List TryCatchScope
  unresolvedGotos : List (List GotoJump)
  landingPads : List (Option BlockId)
  ehPtrSlot : Option VarId
  ehSelectorSlot : Option VarId
  resumeUnwindBlock : Option BlockId
  currentBlock : BlockId
  func : FuncState
deriving DecidableEq, Repr

namespace TryCatchFinallyScopes

/-- `empty()` (header line 190). -/
def empty (st : TryCatchFinallyScopes) : Bool :=
  st.tryCatchScopes.isEmpty && st.cleanupScopes.isEmpty

/-- `currentCleanupScope()` (header line 227): the cleanup stack's size. -/
def currentCleanupScope (st : TryCatchFinallyScopes) : CleanupCursor :=
  st.cleanupScopes.length

/-- Modelled from the spec: `pushCleanup` (body in the missing
trycatchfinally.cpp; spec section 4.4): strict push in lexical order. -/
def pushCleanup (st : TryCatchFinallyScopes) (beginB endB : BlockId) :
    TryCatchFinallyScopes :=
  { st with cleanupScopes := st.cleanupScopes ++ [CleanupScope.make beginB endB] }

/-- Modelled from the spec: `popCleanups` (body in the missing
trycatchfinally.cpp; spec section 4.4): pure bookkeeping pop of the
cleanup stack down to `targetScope`, emitting no control flow. -/
def popCleanups (st : TryCatchFinallyScopes) (targetScope : CleanupCursor) :
    TryCatchFinallyScopes :=
  { st with cleanupScopes := st.cleanupScopes.take targetScope }

/-- Modelled from the spec: `pushTryCatch` (body in the missing
trycatchfinally.cpp; spec section 4.4): the catch bodies are emitted just
before registering the new scope, which records the current cleanup
cursor. -/
def pushTryCatch (st : TryCatchFinallyScopes) (stmt : TryCatchStatement) :
    TryCatchFinallyScopes :=
  { st with tryCatchScopes :=
      st.tryCatchScopes ++ [TryCatchScope.make stmt st.currentCleanupScope] }

/-- Modelled from the spec: `popTryCatch` (body in the missing
trycatchfinally.cpp; spec section 4.4). -/
def popTryCatch (st : TryCatchFinallyScopes) : TryCatchFinallyScopes :=
  { st with tryCatchScopes := st.tryCatchScopes.dropLast }

/-- `isCatchingNonExceptions()` for the whole stack (header line 201). -/
def isCatchingNonExceptions (st : TryCatchFinallyScopes) : Bool :=
  st.tryCatchScopes.any TryCatchScope.isCatchingNonExceptions

/-- Modelled from the spec: the internal
`runCleanups(sourceScope, targetScope, continueWith)` (body in the missing
trycatchfinally.cpp; spec section 4.4), generalised over the block that is
being terminated.  With no cleanup between the two cursors the block is
wired directly to `continueWith`; otherwise it branches to the entry of
the innermost cleanup and the chain of scopes from `sourceScope` down to
`targetScope + 1` is run, each continuing at the entry of the next-outer
scope and the last at `continueWith`.  Also returns the chain trace. -/
def runCleanupsFrom (st : TryCatchFinallyScopes)
    (sourceScope targetScope : CleanupCursor) (srcBlock cw : BlockId) :
    TryCatchFinallyScopes × List (Nat × BlockId) :=
  if sourceScope = targetScope then
    ({ st with func := st.func.setTerm srcBlock (Terminator.br cw) }, [])
  else
    let entry := (st.cleanupScopes.getD (sourceScope - 1) default).beginBlock
    let f1 := st.func.setTerm srcBlock (Terminator.br entry)
    let r := runChain targetScope cw sourceScope st.cleanupScopes f1 srcBlock
    ({ st with cleanupScopes := r.1, func := r.2.1 }, r.2.2)

/-- Modelled from the spec: public
`runCleanups(targetScope, continueWith)` (body in the missing
trycatchfinally.cpp; spec section 4.4): terminates the current block with
the branch chain for leaving the current scope down to `targetScope`. -/
def runCleanups (st : TryCatchFinallyScopes) (targetScope : CleanupCursor)
    (cw : BlockId) : TryCatchFinallyScopes × List (Nat × BlockId) :=
  st.runCleanupsFrom st.currentCleanupScope targetScope st.currentBlock cw

/-- Modelled from the spec: `registerUnresolvedGoto` (body in the missing
trycatchfinally.cpp; spec section 4.3): allocates a placeholder target
block, terminates the current block with a branch to it, and stores the
record under the current cleanup depth's pending list. -/
def registerUnresolvedGoto (st : TryCatchFinallyScopes) (loc : Nat)
    (labelName : Nat) : TryCatchFinallyScopes :=
  let tb := st.func.nextId
  let f1 : FuncState := { st.func with nextId := st.func.nextId + 1 }
  let f2 := f1.setTerm st.currentBlock (Terminator.br tb)
  let d := st.currentCleanupScope
  { st with
    func := f2,
    unresolvedGotos :=
      setExt [] st.unresolvedGotos d
        ((st.unresolvedGotos.getD d []) ++ [⟨loc, st.currentBlock, tb, labelName⟩]) }

/-- Resolve, in order, the pending gotos of one depth `g` that match the
label: each source block is re-wired through the cleanups between `g` and
the label's depth `lv` to the actual target.  Returns the per-record
traces. -/
def resolveList (lv : CleanupCursor) (tgt : BlockId) (g : CleanupCursor) :
    List GotoJump → TryCatchFinallyScopes →
    TryCatchFinallyScopes × List (GotoJump × Nat × List (Nat × BlockId))
  | [], st => (st, [])
  | gj :: gjs, st =>
    let r := st.runCleanupsFrom g lv gj.sourceBlock tgt
    let rest := resolveList lv tgt g gjs r.1
    (rest.1, (gj, g, r.2) :: rest.2)

/-- Process the pending-goto lists of depths `0, ..., n-1`: matching
records are removed and resolved, the others are kept. -/
def resolveUpTo (lv : CleanupCursor) (labelName : Nat) (tgt : BlockId) :
    Nat → TryCatchFinallyScopes →
    TryCatchFinallyScopes × List (GotoJump × Nat × List (Nat × BlockId))
  | 0, st => (st, [])
  | n + 1, st =>
    let r1 := resolveUpTo lv labelName tgt n st
    let pending := r1.1.unresolvedGotos.getD n []
    let matched := pending.filter (fun gj => gj.targetLabel = labelName)
    let kept := pending.filter (fun gj => gj.targetLabel ≠ labelName)
    let st2 : TryCatchFinallyScopes :=
      { r1.1 with unresolvedGotos := setExt [] r1.1.unresolvedGotos n kept }
    let r2 := resolveList lv tgt n matched st2
    (r2.1, r1.2 ++ r2.2)

/-- Modelled from the spec: `tryResolveGotos` (body in the missing
trycatchfinally.cpp; spec section 4.3): for every pending record matching
the label, searched across all depths, makes the source block reach the
target block after running every cleanup between the goto's recorded depth
and the label's (current) depth, reusing the cleanup-running machinery;
with no cleanup in between the source block is wired directly to the
target.  Matched records are removed.  Returns, for bookkeeping, each
resolved record with its recorded depth and its cleanup-chain trace. -/
def tryResolveGotos (st : TryCatchFinallyScopes) (labelName : Nat)
    (targetBlock : BlockId) :
    TryCatchFinallyScopes × List (GotoJump × Nat × List (Nat × BlockId)) :=
  resolveUpTo st.currentCleanupScope labelName targetBlock
    st.unresolvedGotos.length st

/-- Modelled from the spec: `getOrCreateEhPtrSlot` (body in the missing
trycatchfinally.cpp; spec section 4.4): lazily creates the function-wide
exception-pointer slot in the entry block. -/
def getOrCreateEhPtrSlot (st : TryCatchFinallyScopes) :
    TryCatchFinallyScopes × VarId :=
  match st.ehPtrSlot with
  | some v => (st, v)
  | none =>
    let v := st.func.nextId
    ({ st with ehPtrSlot := some v,
               func := { st.func with nextId := st.func.nextId + 1 } }, v)

/-- Modelled from the spec: `getOrCreateResumeUnwindBlock` (body in the
missing trycatchfinally.cpp; spec section 4.4): lazily creates the single
function-wide block that calls the resume-unwind runtime entry point. -/
def getOrCreateResumeUnwindBlock (st : TryCatchFinallyScopes) :
    TryCatchFinallyScopes × BlockId :=
  match st.resumeUnwindBlock with
  | some b => (st, b)
  | none =>
    let b := st.func.nextId
    let f1 : FuncState := { st.func with nextId := st.func.nextId + 1 }
    ({ st with resumeUnwindBlock := some b,
               func := f1.setTerm b Terminator.resumeUnwind }, b)

/-- Modelled from the spec: `getLandingPad` (body in the missing
trycatchfinally.cpp; spec section 4.4): returns the cached landing pad for
the current cleanup depth if there is one; otherwise emits a new one (a
fresh block, built by the `emitLandingPadCode` dispatch over the current
try/catch stack) and caches it under the current depth. -/
def getLandingPad (st : TryCatchFinallyScopes) :
    TryCatchFinallyScopes × BlockId :=
  let d := st.currentCleanupScope
  match st.landingPads.getD d none with
  | some b => (st, b)
  | none =>
    let r := st.getOrCreateResumeUnwindBlock
    let b := r.1.func.nextId
    let f1 : FuncState := { r.1.func with nextId := r.1.func.nextId + 1 }
    ({ r.1 with func := f1,
                landingPads := setExt none r.1.landingPads d (some b) }, b)

end TryCatchFinallyScopes

/-- The cleanup-chain trace the specification promises for a transfer from
cursor `d` down to cursor `tgt`: the depths `d, d-1, ..., tgt+1` in
strictly descending order, each paired with its continuation - the entry
block of the next-outer cleanup scope, and for the outermost one the final
continuation `cw`. -/
def expectedChain (scopes : List CleanupScope) (tgt : Nat) (cw : BlockId)
    (d : Nat) : List (Nat × BlockId) :=
  (descRange tgt d).map (fun i =>
    (i, if i - 1 = tgt then cw else (scopes.getD (i - 2) default).beginBlock))

/-- Structural well-formedness of a cleanup scope: a branch selector only
exists once there is at least one exit target. -/
def WFScope (s : CleanupScope) : Prop :=
  s.branchSelector.isSome → s.exitTargets ≠ []

/-- The multiplexed-scope tag invariant: every predecessor recorded as
wanting the exit target at index `i` has stored exactly `i` into the
branch-selector variable. -/
def tagInvariant (s : CleanupScope) (f : FuncState) : Prop :=
  ∀ sel, s.branchSelector = some sel →
    ∀ i t, s.exitTargets[i]? = some t →
      ∀ b ∈ t.sourceBlocks, (b, sel, i) ∈ f.tagStores

/-- Invariant of the landing-pad cache: every cached block handle has been
allocated, and blocks cached at two different depths are distinct. -/
def padCacheInv (st : TryCatchFinallyScopes) : Prop :=
  (∀ i b, st.landingPads.getD i none = some b → b < st.func.nextId) ∧
  (∀ i j bi bj, i ≠ j → st.landingPads.getD i none = some bi →
    st.landingPads.getD j none = some bj → bi ≠ bj)

/-- Invariant of a cleanup scope under the duplicating (funclet) model:
the scope has blocks, all handles are allocated, every exit target owns a
full-size copy of the cleanup blocks whose final block branches to that
target's continuation, no block is shared between two targets, and no two
targets have the same continuation. -/
def copyShape (bl : List BlockId) (ts : List CleanupExitTarget)
    (f : FuncState) : Prop :=
  bl ≠ [] ∧
  (∀ x ∈ bl, x < f.nextId) ∧
  (∀ t ∈ ts,
    t.cleanupBlocks.length = bl.length ∧
    (∀ x ∈ t.cleanupBlocks, x < f.nextId) ∧
    f.lookupTerm (t.cleanupBlocks.getLastD 0) = Terminator.br t.branchTarget) ∧
  List.Pairwise (fun a b => ∀ x ∈ a.cleanupBlocks, x ∉ b.cleanupBlocks) ts ∧
  (ts.map CleanupExitTarget.branchTarget).Nodup

/-- `copyShape` for a whole scope. -/
def copyInv (s : CleanupScope) (f : FuncState) : Prop :=
  copyShape s.blocks s.exitTargets f

/-- A concrete function state used by the witnesses. -/
def sampleFunc : FuncState := ⟨[], [], [], 20⟩

/-- A concrete orchestrator state used by the witnesses: two cleanup
scopes and one try/catch scope are active. -/
def sampleState : TryCatchFinallyScopes :=
  ⟨[CleanupScope.make 0 1, CleanupScope.make 2 3],
   [TryCatchScope.make ⟨[⟨5, [exceptionClassId], 6, none⟩]⟩ 1],
   [[], [⟨0, 7, 8, 15⟩]],
   [none, none],
   none, none, none, 9, sampleFunc⟩

/-! Basic lemmas about the function state. -/

theorem FuncState.lookupTerm_setTerm_self (f : FuncState) (b : BlockId)
    (t : Terminator) : (f.setTerm b t).lookupTerm b = t := by
  simp [FuncState.lookupTerm, FuncState.setTerm, List.find?_cons]

theorem FuncState.lookupTerm_setTerm_ne (f : FuncState) {b x : BlockId}
    (t : Terminator) (h : b ≠ x) :
    (f.setTerm b t).lookupTerm x = f.lookupTerm x := by
  simp [FuncState.lookupTerm, FuncState.setTerm, List.find?_cons, h]

theorem FuncState.lookupTerm_storeTag (f : FuncState) (b : BlockId) (v : VarId)
    (tag : Nat) (x : BlockId) :
    (f.storeTag b v tag).lookupTerm x = f.lookupTerm x := rfl

theorem foldStore_terms (v : VarId) (tag : Nat) :
    ∀ (l : List BlockId) (g : FuncState),
      (l.foldl (fun g b => FuncState.storeTag g b v tag) g).terms = g.terms := by
  intro l
  induction l with
  | nil => intro g; rfl
  | cons a l ih => intro g; simpa [FuncState.storeTag] using ih _

theorem foldStore_nextId (v : VarId) (tag : Nat) :
    ∀ (l : List BlockId) (g : FuncState),
      (l.foldl (fun g b => FuncState.storeTag g b v tag) g).nextId = g.nextId := by
  intro l
  induction l with
  | nil => intro g; rfl
  | cons a l ih => intro g; simpa [FuncState.storeTag] using ih _

theorem foldStore_mono (v : VarId) (tag : Nat)
    {x : BlockId × VarId × Nat} :
    ∀ (l : List BlockId) (g : FuncState), x ∈ g.tagStores →
      x ∈ (l.foldl (fun g b => FuncState.storeTag g b v tag) g).tagStores := by
  intro l
  induction l with
  | nil => intro g h; exact h
  | cons a l ih =>
    intro g h
    exact ih _ (by simp [FuncState.storeTag]; exact Or.inr h)

theorem foldStore_mem (v : VarId) (tag : Nat) {p : BlockId} :
    ∀ (l : List BlockId) (g : FuncState), p ∈ l →
      (p, v, tag) ∈ (l.foldl (fun g b => FuncState.storeTag g b v tag) g).tagStores := by
  intro l
  induction l with
  | nil => intro g h; cases h
  | cons a l ih =>
    intro g h
    rcases List.mem_cons.mp h with h | h
    · subst h
      exact foldStore_mono v tag l _ (by simp [FuncState.storeTag])
    · exact ih _ h

/-! Basic lemmas about `CleanupScope.run`. -/

theorem run_blocks (s : CleanupScope) (f : FuncState) (a c : BlockId) :
    (s.run f a c).1.blocks = s.blocks := by
  rcases s with ⟨bl, sel, ets⟩
  cases ets with
  | nil => rfl
  | cons t ts =>
    cases sel with
    | none =>
      by_cases h : t.branchTarget = c <;> simp [CleanupScope.run, h]
    | some sel =>
      cases h : findTargetIdx c (t :: ts) <;> simp [CleanupScope.run, h]

theorem run_ret (s : CleanupScope) (f : FuncState) (a c : BlockId) :
    (s.run f a c).2.2 = s.beginBlock := by
  rcases s with ⟨bl, sel, ets⟩
  cases ets with
  | nil => rfl
  | cons t ts =>
    cases sel with
    | none =>
      by_cases h : t.branchTarget = c <;> simp [CleanupScope.run, h]
    | some sel =>
      cases h : findTargetIdx c (t :: ts) <;> simp [CleanupScope.run, h]

theorem run_beginBlock (s : CleanupScope) (f : FuncState) (a c : BlockId) :
    (s.run f a c).1.beginBlock = s.beginBlock := by
  simp [CleanupScope.beginBlock, run_blocks]

theorem run_endBlock (s : CleanupScope) (f : FuncState) (a c : BlockId) :
    (s.run f a c).1.endBlock = s.endBlock := by
  simp [CleanupScope.endBlock, run_blocks]

theorem run_tagStores_mono (s : CleanupScope) (f : FuncState) (a c : BlockId)
    {x : BlockId × VarId × Nat} (h : x ∈ f.tagStores) :
    x ∈ (s.run f a c).2.1.tagStores := by
  rcases s with ⟨bl, sel, ets⟩
  cases ets with
  | nil => exact h
  | cons t ts =>
    cases sel with
    | none =>
      by_cases hb : t.branchTarget = c
      · simpa [CleanupScope.run, hb] using h
      · simp only [CleanupScope.run, hb, if_false]
        simp only [FuncState.setTerm, FuncState.storeTag]
        exact List.mem_cons_of_mem _
          (foldStore_mono _ _ _ _ (by simpa [FuncState.storeTag] using h))
    | some sel =>
      cases hf : findTargetIdx c (t :: ts) with
      | some i =>
        simp only [CleanupScope.run, hf]
        simp [FuncState.storeTag]
        exact Or.inr h
      | none =>
        simp only [CleanupScope.run, hf]
        simp [FuncState.setTerm, FuncState.storeTag]
        exact Or.inr h

theorem run_lookupTerm_ne (s : CleanupScope) (f : FuncState) (a c : BlockId)
    {x : BlockId} (h : s.endBlock ≠ x) :
    (s.run f a c).2.1.lookupTerm x = f.lookupTerm x := by
  rcases s with ⟨bl, sel, ets⟩
  cases ets with
  | nil =>
    simpa [CleanupScope.run] using
      FuncState.lookupTerm_setTerm_ne f _ h
  | cons t ts =>
    cases sel with
    | none =>
      by_cases hb : t.branchTarget = c
      · simp [CleanupScope.run, hb]
      · simp only [CleanupScope.run, hb, if_false]
        rw [FuncState.lookupTerm_setTerm_ne _ _ h, FuncState.lookupTerm_storeTag]
        simp only [FuncState.lookupTerm]
        rw [foldStore_terms]
    | some sel =>
      cases hf : findTargetIdx c (t :: ts) with
      | some i =>
        simp only [CleanupScope.run, hf]
        exact FuncState.lookupTerm_storeTag _ _ _ _ _
      | none =>
        simp only [CleanupScope.run, hf]
        rw [FuncState.lookupTerm_setTerm_ne _ _ h, FuncState.lookupTerm_storeTag]

theorem runManyRets_singleTarget (bl : List BlockId) (cw : BlockId)
    (cbs : List BlockId) :
    ∀ (srcs : List BlockId) (sbs : List BlockId) (f : FuncState),
      runManyRets (⟨bl, none, [⟨cw, sbs, cbs⟩]⟩, f) (srcs.map (fun a => (a, cw))) =
        (⟨bl, none, [⟨cw, srcs.reverse ++ sbs, cbs⟩]⟩, f,
         srcs.map (fun _ => bl.headD 0)) := by
  intro srcs
  induction srcs with
  | nil => intro sbs f; simp [runManyRets]
  | cons a srcs ih =>
    intro sbs f
    have hrun : CleanupScope.run ⟨bl, none, [⟨cw, sbs, cbs⟩]⟩ f a cw =
        (⟨bl, none, [⟨cw, a :: sbs, cbs⟩]⟩, f, bl.headD 0) := by
      simp [CleanupScope.run, CleanupScope.beginBlock]
    simp only [List.map_cons, runManyRets, hrun]
    rw [ih (a :: sbs) f]
    simp

theorem runMany_blocks (rs : List (BlockId × BlockId)) :
    ∀ (p : CleanupScope × FuncState), (runMany p rs).1.blocks = p.1.blocks := by
  induction rs with
  | nil => intro p; rfl
  | cons r rs ih =>
    intro p
    simp only [runMany, List.foldl_cons]
    have := ih ((CleanupScope.run p.1 p.2 r.1 r.2).1,
      (CleanupScope.run p.1 p.2 r.1 r.2).2.1)
    simp only [runMany] at this
    rw [this, run_blocks]

/-- C4: for every cleanup scope on which run is requested with exactly one
distinct continuation block (any number of source blocks), no
branch-selector variable is ever created (the selector stays absent and no
handle is allocated) and no tag store is ever inserted in any predecessor;
every such run call returns the scope's begin block and only records the
additional predecessor (the one exit target accumulates the source
blocks, the end block simply branches to the continuation). -/
theorem claim_C4 (b e cw : BlockId) (f : FuncState) (src : BlockId)
    (srcs : List BlockId) :
    (runManyRets (CleanupScope.make b e, f)
      ((src :: srcs).map (fun a => (a, cw)))).1.branchSelector = none ∧
    (runManyRets (CleanupScope.make b e, f)
      ((src :: srcs).map (fun a => (a, cw)))).2.1.tagStores = f.tagStores ∧
    (runManyRets (CleanupScope.make b e, f)
      ((src :: srcs).map (fun a => (a, cw)))).2.1.nextId = f.nextId ∧
    (runManyRets (CleanupScope.make b e, f)
      ((src :: srcs).map (fun a => (a, cw)))).2.2 =
      (src :: srcs).map (fun _ => b) ∧
    (runManyRets (CleanupScope.make b e, f)
      ((src :: srcs).map (fun a => (a, cw)))).1.exitTargets =
      [⟨cw, (src :: srcs).reverse, []⟩] ∧
    (runManyRets (CleanupScope.make b e, f)
      ((src :: srcs).map (fun a => (a, cw)))).2.1 =
      f.setTerm e (Terminator.br cw) := by
  have ho : CleanupScope.run (CleanupScope.make b e) f src cw =
      (⟨[b, e], none, [⟨cw, [src], []⟩]⟩, f.setTerm e (Terminator.br cw), b) := rfl
  have h : runManyRets (CleanupScope.make b e, f)
      ((src :: srcs).map (fun a => (a, cw))) =
      (⟨[b, e], none, [⟨cw, (src :: srcs).reverse, []⟩]⟩,
       f.setTerm e (Terminator.br cw), (src :: srcs).map (fun _ => b)) := by
    simp only [List.map_cons, runManyRets, ho]
    rw [runManyRets_singleTarget [b, e] cw [] srcs [src]
      (f.setTerm e (Terminator.br cw))]
    simp
  rw [h]
  simp [FuncState.setTerm]

/-- Witness for C4 at a concrete scope, two requests with one shared
continuation. -/
theorem claim_C4_witness :
    (runManyRets (CleanupScope.make 0 1, sampleFunc)
      (([5, 6]).map (fun a => (a, 7)))).1.branchSelector = none ∧
    (runManyRets (CleanupScope.make 0 1, sampleFunc)
      (([5, 6]).map (fun a => (a, 7)))).2.1.tagStores = sampleFunc.tagStores ∧
    (runManyRets (CleanupScope.make 0 1, sampleFunc)
      (([5, 6]).map (fun a => (a, 7)))).2.1.nextId = sampleFunc.nextId ∧
    (runManyRets (CleanupScope.make 0 1, sampleFunc)
      (([5, 6]).map (fun a => (a, 7)))).2.2 = ([5, 6]).map (fun _ => 0) ∧
    (runManyRets (CleanupScope.make 0 1, sampleFunc)
      (([5, 6]).map (fun a => (a, 7)))).1.exitTargets =
      [⟨7, ([5, 6]).reverse, []⟩] ∧
    (runManyRets (CleanupScope.make 0 1, sampleFunc)
      (([5, 6]).map (fun a => (a, 7)))).2.1 =
      sampleFunc.setTerm 1 (Terminator.br 7) :=
  claim_C4 0 1 7 sampleFunc 5 [6]

/-- C5: a run request on a SingleTarget cleanup scope with a second,
different continuation promotes it to multiplexed form: the branch
selector variable is created (one fresh handle), the end block's
terminator is rewritten to a dispatch on the selector over both targets,
every previously recorded predecessor retroactively gets a store of tag 0
and the new source block a store of tag 1, the new target is added with
tag 1; and no second cleanup body is ever materialized - the scope's block
list stays untouched through this and through any sequence of further run
requests. -/
theorem claim_C5 (bl : List BlockId) (t1 : BlockId) (sbs cbs : List BlockId)
    (f : FuncState) (src cw : BlockId) (h : cw ≠ t1) :
    (CleanupScope.run ⟨bl, none, [⟨t1, sbs, cbs⟩]⟩ f src cw).1.branchSelector =
      some f.nextId ∧
    (CleanupScope.run ⟨bl, none, [⟨t1, sbs, cbs⟩]⟩ f src cw).2.1.nextId =
      f.nextId + 1 ∧
    (CleanupScope.run ⟨bl, none, [⟨t1, sbs, cbs⟩]⟩ f src cw).2.1.lookupTerm
        (bl.getLastD 0) =
      Terminator.switchSelector f.nextId [t1, cw] ∧
    (∀ p ∈ sbs, (p, f.nextId, 0) ∈
      (CleanupScope.run ⟨bl, none, [⟨t1, sbs, cbs⟩]⟩ f src cw).2.1.tagStores) ∧
    (src, f.nextId, 1) ∈
      (CleanupScope.run ⟨bl, none, [⟨t1, sbs, cbs⟩]⟩ f src cw).2.1.tagStores ∧
    (CleanupScope.run ⟨bl, none, [⟨t1, sbs, cbs⟩]⟩ f src cw).1.exitTargets =
      [⟨t1, sbs, cbs⟩, ⟨cw, [src], []⟩] ∧
    (CleanupScope.run ⟨bl, none, [⟨t1, sbs, cbs⟩]⟩ f src cw).1.blocks = bl ∧
    (∀ rs, (runMany ((CleanupScope.run ⟨bl, none, [⟨t1, sbs, cbs⟩]⟩ f src cw).1,
        (CleanupScope.run ⟨bl, none, [⟨t1, sbs, cbs⟩]⟩ f src cw).2.1) rs).1.blocks
      = bl) := by
  have hne : ¬(t1 = cw) := fun hh => h hh.symm
  refine ⟨?_, ?_, ?_, ?_, ?_, ?_, ?_, ?_⟩
  · simp [CleanupScope.run, hne]
  · simp only [CleanupScope.run, hne, if_false]
    exact foldStore_nextId f.nextId 0 sbs _
  · simp only [CleanupScope.run, hne, if_false]
    exact FuncState.lookupTerm_setTerm_self _ _ _
  · intro p hp
    simp only [CleanupScope.run, hne, if_false]
    exact List.mem_cons_of_mem _ (foldStore_mem _ _ _ _ hp)
  · simp only [CleanupScope.run, hne, if_false]
    exact List.mem_cons_self _ _
  · simp [CleanupScope.run, hne]
  · simp [CleanupScope.run, hne]
  · intro rs
    rw [runMany_blocks, run_blocks]

/-- Witness for C5 at a concrete promoting request. -/
theorem claim_C5_witness :
    (CleanupScope.run ⟨[0, 1], none, [⟨7, [5], []⟩]⟩ sampleFunc 6 8).1.branchSelector =
      some sampleFunc.nextId ∧
    (6, sampleFunc.nextId, 1) ∈
      (CleanupScope.run ⟨[0, 1], none, [⟨7, [5], []⟩]⟩ sampleFunc 6 8).2.1.tagStores :=
  ⟨(claim_C5 [0, 1] 7 [5] [] sampleFunc 6 8 (by decide)).1,
   (claim_C5 [0, 1] 7 [5] [] sampleFunc 6 8 (by decide)).2.2.2.2.1⟩

/-! Lemmas for the multiplexed tag invariant. -/

theorem findTargetIdx_lt {cw : BlockId} :
    ∀ {ts : List CleanupExitTarget} {i : Nat},
      findTargetIdx cw ts = some i → i < ts.length := by
  intro ts
  induction ts with
  | nil => intro i h; cases h
  | cons t ts ih =>
    intro i h
    by_cases hb : t.branchTarget = cw
    · simp [findTargetIdx, hb] at h
      simp [← h]
    · simp only [findTargetIdx, hb, if_false] at h
      cases hf : findTargetIdx cw ts with
      | none => rw [hf] at h; cases h
      | some j =>
        rw [hf] at h
        simp at h
        have := ih hf
        simp [List.length_cons]
        omega

theorem addSourceAt_getElem?_ne (b : BlockId) :
    ∀ (ts : List CleanupExitTarget) (i j : Nat), j ≠ i →
      (addSourceAt ts i b)[j]? = ts[j]? := by
  intro ts
  induction ts with
  | nil => intro i j _; cases i <;> rfl
  | cons t ts ih =>
    intro i j hj
    cases i with
    | zero =>
      cases j with
      | zero => exact absurd rfl hj
      | succ j => simp [addSourceAt]
    | succ i =>
      cases j with
      | zero => simp [addSourceAt]
      | succ j =>
        simp only [addSourceAt, List.getElem?_cons_succ]
        exact ih i j (fun hh => hj (by rw [hh]))

theorem addSourceAt_getElem?_self (b : BlockId) :
    ∀ (ts : List CleanupExitTarget) (i : Nat) (t : CleanupExitTarget),
      ts[i]? = some t →
      (addSourceAt ts i b)[i]? =
        some ⟨t.branchTarget, b :: t.sourceBlocks, t.cleanupBlocks⟩ := by
  intro ts
  induction ts with
  | nil => intro i t h; cases i <;> cases h
  | cons t0 ts ih =>
    intro i t h
    cases i with
    | zero =>
      simp at h
      subst h
      simp [addSourceAt]
    | succ i =>
      simp only [addSourceAt, List.getElem?_cons_succ] at h ⊢
      exact ih i t h

theorem run_preserves_inv (s : CleanupScope) (f : FuncState) (a c : BlockId)
    (hwf : WFScope s) (hinv : tagInvariant s f) :
    WFScope (s.run f a c).1 ∧ tagInvariant (s.run f a c).1 (s.run f a c).2.1 := by
  rcases s with ⟨bl, sel, ets⟩
  cases ets with
  | nil =>
    constructor
    · intro hsome
      have : sel.isSome := by
        simpa [CleanupScope.run] using hsome
      exact absurd rfl (hwf this)
    · intro sel0 hsel0 i t hit
      have : sel = some sel0 := by
        simpa [CleanupScope.run] using hsel0
      exact absurd rfl (hwf (by simp [this]))
  | cons t ts =>
    cases sel with
    | none =>
      by_cases hb : t.branchTarget = c
      · constructor
        · intro hsome
          simp [CleanupScope.run, hb] at hsome
        · intro sel0 hsel0
          simp [CleanupScope.run, hb] at hsel0
      · constructor
        · intro _
          simp [CleanupScope.run, hb]
        · intro sel0 hsel0 i tt hit b hbmem
          simp only [CleanupScope.run, hb, if_false] at hsel0 hit ⊢
          have hsel0 : f.nextId = sel0 := by simpa using hsel0
          subst hsel0
          match i, hit with
          | 0, hit =>
            have ht : tt = t := by simpa using hit.symm
            subst ht
            exact List.mem_cons_of_mem _ (foldStore_mem _ _ _ _ hbmem)
          | 1, hit =>
            have ht : tt = (⟨c, [a], []⟩ : CleanupExitTarget) := by
              simpa using hit.symm
            subst ht
            simp at hbmem
            subst hbmem
            exact List.mem_cons_self _ _
          | n + 2, hit => simp at hit
    | some sel =>
      cases hf : findTargetIdx c (t :: ts) with
      | some i =>
        constructor
        · intro _
          simp only [CleanupScope.run, hf]
          cases i <;> simp [addSourceAt]
        · intro sel0 hsel0 j tt hjt b hbmem
          simp only [CleanupScope.run, hf] at hsel0 hjt ⊢
          have hsel0 : sel = sel0 := by simpa using hsel0
          subst hsel0
          by_cases hji : j = i
          · subst hji
            have hlt := findTargetIdx_lt hf
            have ht0 : (t :: ts)[j]? = some (t :: ts)[j] :=
              List.getElem?_eq_getElem hlt
            rw [addSourceAt_getElem?_self _ _ _ _ ht0] at hjt
            have htt : tt = ⟨(t :: ts)[j].branchTarget,
                a :: (t :: ts)[j].sourceBlocks,
                (t :: ts)[j].cleanupBlocks⟩ := by simpa using hjt.symm
            subst htt
            simp only [List.mem_cons] at hbmem
            rcases hbmem with hbmem | hbmem
            · subst hbmem
              exact List.mem_cons_self _ _
            · exact List.mem_cons_of_mem _ (hinv sel rfl j _ ht0 b hbmem)
          · rw [addSourceAt_getElem?_ne _ _ _ _ hji] at hjt
            exact List.mem_cons_of_mem _ (hinv sel rfl j tt hjt b hbmem)
      | none =>
        constructor
        · intro _
          simp [CleanupScope.run, hf]
        · intro sel0 hsel0 j tt hjt b hbmem
          simp only [CleanupScope.run, hf] at hsel0 hjt ⊢
          have hsel0 : sel = sel0 := by simpa using hsel0
          subst hsel0
          by_cases hjl : j < (t :: ts).length
          · rw [List.getElem?_append_left hjl] at hjt
            exact List.mem_cons_of_mem _ (hinv sel rfl j tt hjt b hbmem)
          · have hge : (t :: ts).length ≤ j := Nat.le_of_not_lt hjl
            rcases Nat.eq_or_lt_of_le hge with heq | hlt
            · rw [← heq, List.getElem?_concat_length] at hjt
              have htt : tt = (⟨c, [a], []⟩ : CleanupExitTarget) := by
                simpa using hjt.symm
              subst htt
              simp at hbmem
              subst hbmem
              rw [← heq]
              exact List.mem_cons_self _ _
            · rw [List.getElem?_append_right hge] at hjt
              have : j - (t :: ts).length ≥ 1 := by omega
              rw [List.getElem?_eq_none (by simpa using this)] at hjt
              cases hjt

/-- C10: invariant of every CleanupScope in multiplexed form - starting
from a freshly constructed scope, after any sequence of run calls, the
integer tag stored by a predecessor wanting a given continuation is the
index of that continuation's entry in the scope's exit-target list, for
every exit target and every recorded predecessor. -/
theorem claim_C10 (b e : BlockId) (f : FuncState)
    (rs : List (BlockId × BlockId)) :
    tagInvariant (runMany (CleanupScope.make b e, f) rs).1
      (runMany (CleanupScope.make b e, f) rs).2 := by
  suffices h : ∀ (rs : List (BlockId × BlockId)) (p : CleanupScope × FuncState),
      WFScope p.1 → tagInvariant p.1 p.2 →
      WFScope (runMany p rs).1 ∧ tagInvariant (runMany p rs).1 (runMany p rs).2 by
    refine (h rs (CleanupScope.make b e, f) ?_ ?_).2
    · intro hsome
      simp [CleanupScope.make] at hsome
    · intro sel0 hsel0
      simp [CleanupScope.make] at hsel0
  intro rs
  induction rs with
  | nil => intro p h1 h2; exact ⟨h1, h2⟩
  | cons r rs ih =>
    intro p h1 h2
    have hstep := run_preserves_inv p.1 p.2 r.1 r.2 h1 h2
    have := ih ((CleanupScope.run p.1 p.2 r.1 r.2).1,
      (CleanupScope.run p.1 p.2 r.1 r.2).2.1) hstep.1 hstep.2
    simpa [runMany, List.foldl_cons] using this

/-! Lemmas for the duplicating (funclet) model. -/

theorem getLastD_mem {l : List α} (d : α) (h : l ≠ []) : l.getLastD d ∈ l := by
  cases l with
  | nil => exact absurd rfl h
  | cons a l =>
    rw [List.getLastD_cons]
    exact List.getLastD_mem_cons l a

theorem runCopyingAux_preserves (bl : List BlockId) (src cw : BlockId)
    (u : Option BlockId) (fu : Option VarId) :
    ∀ (ts : List CleanupExitTarget) (f : FuncState), copyShape bl ts f →
      copyShape bl (runCopyingAux bl src cw u fu ts f).1
        (runCopyingAux bl src cw u fu ts f).2.1 ∧
      (runCopyingAux bl src cw u fu ts f).1.map CleanupExitTarget.branchTarget =
        (if cw ∈ ts.map CleanupExitTarget.branchTarget
         then ts.map CleanupExitTarget.branchTarget
         else ts.map CleanupExitTarget.branchTarget ++ [cw]) ∧
      f.nextId ≤ (runCopyingAux bl src cw u fu ts f).2.1.nextId ∧
      (∀ x, x < f.nextId →
        (runCopyingAux bl src cw u fu ts f).2.1.lookupTerm x = f.lookupTerm x) ∧
      (∀ b ∈ (runCopyingAux bl src cw u fu ts f).1, ∀ x ∈ b.cleanupBlocks,
        (∃ t0 ∈ ts, x ∈ t0.cleanupBlocks) ∨ f.nextId ≤ x) := by
  intro ts
  induction ts with
  | nil =>
    intro f h
    obtain ⟨h1, h2, _, _, _⟩ := h
    have hn : 0 < bl.length := List.length_pos.mpr h1
    have hmemcopy : ∀ x ∈ (List.range bl.length).map (fun i => f.nextId + i),
        f.nextId ≤ x ∧ x < f.nextId + bl.length := by
      intro x hx
      simp only [List.mem_map, List.mem_range] at hx
      obtain ⟨i, hi, rfl⟩ := hx
      omega
    have hcopyne : (List.range bl.length).map (fun i => f.nextId + i) ≠ [] := by
      simp only [ne_eq, List.map_eq_nil_iff, List.range_eq_nil]
      omega
    have hlastmem := getLastD_mem (l :=
      (List.range bl.length).map (fun i => f.nextId + i)) 0 hcopyne
    have hlast := hmemcopy _ hlastmem
    have hres : runCopyingAux bl src cw u fu [] f =
        ([⟨cw, [src], (List.range bl.length).map (fun i => f.nextId + i)⟩],
         ⟨(((List.range bl.length).map (fun i => f.nextId + i)).getLastD 0,
             Terminator.br cw) :: f.terms,
          f.tagStores,
          (((List.range bl.length).map (fun i => f.nextId + i)).headD 0, u, fu)
            :: f.cloneMeta,
          f.nextId + bl.length⟩,
         ((List.range bl.length).map (fun i => f.nextId + i)).headD 0) := rfl
    rw [hres]
    refine ⟨⟨h1, ?_, ?_, ?_, ?_⟩, ?_, ?_, ?_, ?_⟩
    · intro x hx
      have := h2 x hx
      show x < f.nextId + bl.length
      exact Nat.lt_of_lt_of_le this (Nat.le_add_right _ _)
    · intro t ht
      simp only [List.mem_singleton] at ht
      subst ht
      refine ⟨by simp, ?_, ?_⟩
      · intro x hx
        have := hmemcopy x hx
        show x < f.nextId + bl.length
        exact this.2
      · show (f.setTerm (((List.range bl.length).map
            (fun i => f.nextId + i)).getLastD 0)
            (Terminator.br cw)).lookupTerm
            (((List.range bl.length).map (fun i => f.nextId + i)).getLastD 0) =
          Terminator.br cw
        exact FuncState.lookupTerm_setTerm_self _ _ _
    · simp
    · simp
    · simp
    · show f.nextId ≤ f.nextId + bl.length
      omega
    · intro x hx
      have hne : (((List.range bl.length).map (fun i => f.nextId + i)).getLastD 0)
          ≠ x := by omega
      show (f.setTerm (((List.range bl.length).map
          (fun i => f.nextId + i)).getLastD 0)
          (Terminator.br cw)).lookupTerm x = f.lookupTerm x
      exact FuncState.lookupTerm_setTerm_ne _ _ hne
    · intro b hb x hx
      simp only [List.mem_singleton] at hb
      subst hb
      exact Or.inr (hmemcopy x hx).1
  | cons t ts ih =>
    intro f h
    obtain ⟨h1, h2, htargets, hpair, hnodup⟩ := h
    rw [List.pairwise_cons] at hpair
    rw [List.map_cons, List.nodup_cons] at hnodup
    by_cases hb : t.branchTarget = cw
    · have hres : runCopyingAux bl src cw u fu (t :: ts) f =
          (⟨t.branchTarget, src :: t.sourceBlocks, t.cleanupBlocks⟩ :: ts, f,
           t.cleanupBlocks.headD 0) := by
        simp only [runCopyingAux]
        rw [if_pos hb]
      rw [hres]
      refine ⟨⟨h1, h2, ?_, ?_, ?_⟩, ?_, Nat.le_refl _, fun x _ => rfl, ?_⟩
      · intro tt htt
        rcases List.mem_cons.mp htt with htt | htt
        · subst htt
          exact htargets t (List.mem_cons_self _ _)
        · exact htargets tt (List.mem_cons_of_mem _ htt)
      · rw [List.pairwise_cons]
        exact ⟨fun b hbm x hxm => hpair.1 b hbm x hxm, hpair.2⟩
      · rw [List.map_cons, List.nodup_cons]
        exact ⟨hnodup.1, hnodup.2⟩
      · have hcw : cw ∈ (t :: ts).map CleanupExitTarget.branchTarget := by
          rw [List.map_cons, ← hb]
          exact List.mem_cons_self _ _
        rw [if_pos hcw, List.map_cons, List.map_cons]
      · intro b hbm x hx
        rcases List.mem_cons.mp hbm with hbm | hbm
        · subst hbm
          exact Or.inl ⟨t, List.mem_cons_self _ _, hx⟩
        · exact Or.inl ⟨b, List.mem_cons_of_mem _ hbm, hx⟩
    · have hshape : copyShape bl ts f :=
        ⟨h1, h2, fun tt htt => htargets tt (List.mem_cons_of_mem _ htt),
         hpair.2, hnodup.2⟩
      have IH := ih f hshape
      obtain ⟨IH1, IH2, IH3, IH4, IH5⟩ := IH
      obtain ⟨_, IHbl, IHtargets, IHpair, IHnodup⟩ := IH1
      have hres : runCopyingAux bl src cw u fu (t :: ts) f =
          (t :: (runCopyingAux bl src cw u fu ts f).1,
           (runCopyingAux bl src cw u fu ts f).2.1,
           (runCopyingAux bl src cw u fu ts f).2.2) := by
        simp only [runCopyingAux]
        rw [if_neg hb]
      rw [hres]
      have hcbne : t.cleanupBlocks ≠ [] := by
        have := (htargets t (List.mem_cons_self _ _)).1
        intro hc
        rw [hc] at this
        simp at this
        exact h1 (List.eq_nil_of_length_eq_zero this.symm)
      have hcblt : ∀ x ∈ t.cleanupBlocks, x < f.nextId :=
        (htargets t (List.mem_cons_self _ _)).2.1
      have hlastlt : t.cleanupBlocks.getLastD 0 < f.nextId :=
        hcblt _ (getLastD_mem 0 hcbne)
      refine ⟨⟨h1, ?_, ?_, ?_, ?_⟩, ?_, IH3, IH4, ?_⟩
      · intro x hx
        exact Nat.lt_of_lt_of_le (h2 x hx) IH3
      · intro tt htt
        have htmain := htargets t (List.mem_cons_self _ _)
        rcases List.mem_cons.mp htt with htt | htt
        · subst htt
          refine ⟨htmain.1, ?_, ?_⟩
          · intro x hx
            exact Nat.lt_of_lt_of_le (hcblt x hx) IH3
          · rw [IH4 _ hlastlt]
            exact htmain.2.2
        · exact IHtargets tt htt
      · rw [List.pairwise_cons]
        refine ⟨?_, IHpair⟩
        intro b hbm x hx hxb
        rcases IH5 b hbm x hxb with ⟨t0, ht0, hxt0⟩ | hge
        · exact hpair.1 t0 ht0 x hx hxt0
        · exact Nat.lt_irrefl _ (Nat.lt_of_lt_of_le (hcblt x hx) hge)
      · rw [List.map_cons, List.nodup_cons]
        refine ⟨?_, IHnodup⟩
        rw [IH2]
        by_cases hmem : cw ∈ ts.map CleanupExitTarget.branchTarget
        · simpa [hmem] using hnodup.1
        · simp only [hmem, if_false, List.mem_append]
          rintro (hc | hc)
          · exact hnodup.1 hc
          · simp at hc
            exact hb hc
      · rw [List.map_cons, IH2]
        by_cases hmem : cw ∈ ts.map CleanupExitTarget.branchTarget
        · have : cw ∈ t.branchTarget :: ts.map CleanupExitTarget.branchTarget :=
            List.mem_cons_of_mem _ hmem
          simp [hmem, this]
        · have hnotin : ¬(cw ∈ t.branchTarget ::
              ts.map CleanupExitTarget.branchTarget) := by
            simp only [List.mem_cons]
            rintro (hc | hc)
            · exact hb hc.symm
            · exact hmem hc
          simp [hmem, hnotin]
      · intro b hbm x hx
        rcases List.mem_cons.mp hbm with hbm | hbm
        · rw [hbm] at hx
          exact Or.inl ⟨t, List.mem_cons_self _ _, hx⟩
        · rcases IH5 b hbm x hx with ⟨t0, ht0, hxt0⟩ | hge
          · exact Or.inl ⟨t0, List.mem_cons_of_mem _ ht0, hxt0⟩
          · exact Or.inr hge

theorem runCopying_inv (s : CleanupScope) (f : FuncState) (src cw : BlockId)
    (h : copyInv s f) :
    copyInv (s.runCopying f src cw).1 (s.runCopying f src cw).2.1 ∧
    (s.runCopying f src cw).1.exitTargets.map CleanupExitTarget.branchTarget =
      (if cw ∈ s.exitTargets.map CleanupExitTarget.branchTarget
       then s.exitTargets.map CleanupExitTarget.branchTarget
       else s.exitTargets.map CleanupExitTarget.branchTarget ++ [cw]) ∧
    (s.runCopying f src cw).1.blocks = s.blocks := by
  have haux := runCopyingAux_preserves s.blocks src cw none none s.exitTargets f h
  exact ⟨haux.1, haux.2.1, rfl⟩

theorem runCopyingMany_inv :
    ∀ (rs : List (BlockId × BlockId)) (p : CleanupScope × FuncState),
      copyInv p.1 p.2 →
      copyInv (runCopyingMany p rs).1 (runCopyingMany p rs).2 ∧
      (∀ x, x ∈ (runCopyingMany p rs).1.exitTargets.map
          CleanupExitTarget.branchTarget ↔
        x ∈ p.1.exitTargets.map CleanupExitTarget.branchTarget ∨
        x ∈ rs.map Prod.snd) ∧
      (runCopyingMany p rs).1.blocks = p.1.blocks := by
  intro rs
  induction rs with
  | nil =>
    intro p h
    exact ⟨h, fun x => by simp [runCopyingMany], rfl⟩
  | cons r rs ih =>
    intro p h
    have hstep := runCopying_inv p.1 p.2 r.1 r.2 h
    have hmany := ih ((CleanupScope.runCopying p.1 p.2 r.1 r.2).1,
      (CleanupScope.runCopying p.1 p.2 r.1 r.2).2.1) hstep.1
    have hfold : runCopyingMany p (r :: rs) =
        runCopyingMany ((CleanupScope.runCopying p.1 p.2 r.1 r.2).1,
          (CleanupScope.runCopying p.1 p.2 r.1 r.2).2.1) rs := by
      simp [runCopyingMany, List.foldl_cons]
    rw [hfold]
    refine ⟨hmany.1, ?_, by rw [hmany.2.2, hstep.2.2]⟩
    intro x
    rw [hmany.2.1 x, hstep.2.1]
    have hr : (x ∈ (r :: rs).map Prod.snd) ↔
        (x = r.2 ∨ x ∈ rs.map Prod.snd) := by simp
    rw [hr]
    by_cases hmem : r.2 ∈ p.1.exitTargets.map CleanupExitTarget.branchTarget
    · rw [if_pos hmem]
      constructor
      · rintro (hx | hx)
        · exact Or.inl hx
        · exact Or.inr (Or.inr hx)
      · rintro (hx | hx | hx)
        · exact Or.inl hx
        · rw [hx]; exact Or.inl hmem
        · exact Or.inr hx
    · rw [if_neg hmem]
      constructor
      · rintro (hx | hx)
        · rcases List.mem_append.mp hx with hx | hx
          · exact Or.inl hx
          · have hxr : x = r.2 := by simpa using hx
            exact Or.inr (Or.inl hxr)
        · exact Or.inr (Or.inr hx)
      · rintro (hx | hx | hx)
        · exact Or.inl (List.mem_append.mpr (Or.inl hx))
        · exact Or.inl (List.mem_append.mpr (Or.inr (by simp [hx])))
        · exact Or.inr hx

/-- C6: for every cleanup scope driven through runCopying (the duplicating
funclet model), with N distinct continuation targets requested in any
number of calls, exactly N physical copies of the cleanup's blocks exist -
one per distinct target, not one per call site; each copy's terminator
branches solely to its own designated continuation and no block of one
copy is shared with another target's copy. -/
theorem claim_C6 (b e : BlockId) (f : FuncState) (rs : List (BlockId × BlockId))
    (hb : b < f.nextId) (he : e < f.nextId) :
    (runCopyingMany (CleanupScope.make b e, f) rs).1.exitTargets.length =
      (rs.map Prod.snd).dedup.length ∧
    (∀ x, x ∈ (runCopyingMany (CleanupScope.make b e, f) rs).1.exitTargets.map
        CleanupExitTarget.branchTarget ↔ x ∈ rs.map Prod.snd) ∧
    ((runCopyingMany (CleanupScope.make b e, f) rs).1.exitTargets.map
        CleanupExitTarget.branchTarget).Nodup ∧
    (∀ t ∈ (runCopyingMany (CleanupScope.make b e, f) rs).1.exitTargets,
      t.cleanupBlocks.length = 2 ∧
      (runCopyingMany (CleanupScope.make b e, f) rs).2.lookupTerm
          (t.cleanupBlocks.getLastD 0) =
        Terminator.br t.branchTarget) ∧
    List.Pairwise (fun a b => ∀ x ∈ a.cleanupBlocks, x ∉ b.cleanupBlocks)
      (runCopyingMany (CleanupScope.make b e, f) rs).1.exitTargets := by
  have hinit : copyInv (CleanupScope.make b e) f := by
    refine ⟨by simp [CleanupScope.make], ?_, ?_, ?_, ?_⟩
    · intro x hx
      simp [CleanupScope.make] at hx
      rcases hx with hx | hx <;> subst hx <;> assumption
    · intro t ht
      simp [CleanupScope.make] at ht
    · simp [CleanupScope.make]
    · simp [CleanupScope.make]
  have h := runCopyingMany_inv rs (CleanupScope.make b e, f) hinit
  obtain ⟨⟨_, _, htargets, hpair, hnodup⟩, hmemiff, hblocks⟩ := h
  have hmem : ∀ x, x ∈ (runCopyingMany (CleanupScope.make b e, f)
      rs).1.exitTargets.map CleanupExitTarget.branchTarget ↔
      x ∈ rs.map Prod.snd := by
    intro x
    rw [hmemiff x]
    simp [CleanupScope.make]
  refine ⟨?_, hmem, hnodup, ?_, hpair⟩
  · have hfs : ((runCopyingMany (CleanupScope.make b e, f)
        rs).1.exitTargets.map CleanupExitTarget.branchTarget).toFinset =
        ((rs.map Prod.snd).dedup).toFinset := by
      ext a
      simp only [List.mem_toFinset, List.mem_dedup]
      exact hmem a
    have hc1 := List.toFinset_card_of_nodup hnodup
    have hc2 := List.toFinset_card_of_nodup (List.nodup_dedup (rs.map Prod.snd))
    rw [hfs, hc2] at hc1
    rw [hc1]
    exact (List.length_map _ _).symm
  · intro t ht
    have := htargets t ht
    rw [hblocks] at this
    exact ⟨this.1, this.2.2⟩

/-- Witness for C6 at a concrete scope with three requests for two
distinct targets. -/
theorem claim_C6_witness :
    (runCopyingMany (CleanupScope.make 0 1, sampleFunc)
        [(5, 7), (6, 8), (9, 7)]).1.exitTargets.length =
      (([(5, 7), (6, 8), (9, 7)] : List (BlockId × BlockId)).map
        Prod.snd).dedup.length :=
  (claim_C6 0 1 sampleFunc [(5, 7), (6, 8), (9, 7)] (by decide) (by decide)).1

/-! Lemmas about the descending depth range and the cleanup chain. -/

theorem descRange_nil {tgt d : Nat} (h : d ≤ tgt) : descRange tgt d = [] := by
  cases d with
  | zero => rfl
  | succ n =>
    have : ¬(tgt ≤ n) := by omega
    simp [descRange, this]

theorem descRange_cons {tgt d : Nat} (h : tgt ≤ d) :
    descRange tgt (d + 1) = (d + 1) :: descRange tgt d := by
  simp [descRange, h]

theorem mem_descRange {tgt : Nat} :
    ∀ {d k : Nat}, k ∈ descRange tgt d ↔ (tgt < k ∧ k ≤ d) := by
  intro d
  induction d with
  | zero =>
    intro k
    simp [descRange]
    omega
  | succ n ih =>
    intro k
    by_cases h : tgt ≤ n
    · rw [descRange_cons h, List.mem_cons, ih]
      omega
    · rw [descRange_nil (by omega)]
      simp
      omega

theorem descRange_nodup (tgt : Nat) : ∀ d, (descRange tgt d).Nodup := by
  intro d
  induction d with
  | zero => simp [descRange]
  | succ n ih =>
    by_cases h : tgt ≤ n
    · rw [descRange_cons h, List.nodup_cons]
      refine ⟨?_, ih⟩
      rw [mem_descRange]
      omega
    · rw [descRange_nil (by omega)]
      simp

theorem getD_blocks_set {l : List CleanupScope} {i : Nat} {a : CleanupScope}
    (h : a.blocks = (l.getD i default).blocks) :
    ∀ j, ((l.set i a).getD j default).blocks = (l.getD j default).blocks := by
  intro j
  by_cases hij : i = j
  · subst hij
    by_cases hl : i < l.length
    · rw [List.getD_eq_getElem?_getD, List.getElem?_set_self hl]
      simpa using h
    · rw [List.set_eq_of_length_le (Nat.le_of_not_lt hl)]
  · rw [List.getD_eq_getElem?_getD, List.getElem?_set_ne hij,
      ← List.getD_eq_getElem?_getD]

theorem runChain_blocks (tgt : Nat) (cw : BlockId) :
    ∀ (n : Nat) (scopes : List CleanupScope) (f : FuncState) (src : BlockId)
      (j : Nat),
      ((runChain tgt cw n scopes f src).1.getD j default).blocks =
        (scopes.getD j default).blocks := by
  intro n
  induction n with
  | zero => intro scopes f src j; rfl
  | succ n ih =>
    intro scopes f src j
    by_cases h : tgt ≤ n
    · simp only [runChain]
      rw [if_pos h]
      simp only []
      rw [ih]
      exact getD_blocks_set (run_blocks _ _ _ _) j
    · simp only [runChain]
      rw [if_neg h]

theorem runChain_length (tgt : Nat) (cw : BlockId) :
    ∀ (n : Nat) (scopes : List CleanupScope) (f : FuncState) (src : BlockId),
      (runChain tgt cw n scopes f src).1.length = scopes.length := by
  intro n
  induction n with
  | zero => intro scopes f src; rfl
  | succ n ih =>
    intro scopes f src
    by_cases h : tgt ≤ n
    · simp only [runChain]
      rw [if_pos h]
      simp only []
      rw [ih, List.length_set]
    · simp only [runChain]
      rw [if_neg h]

theorem runChain_trace (tgt : Nat) (cw : BlockId) :
    ∀ (n : Nat) (scopes scopes0 : List CleanupScope) (f : FuncState)
      (src : BlockId),
      (∀ j, (scopes.getD j default).blocks = (scopes0.getD j default).blocks) →
      (runChain tgt cw n scopes f src).2.2 =
        (descRange tgt n).map (fun i =>
          (i, if i - 1 = tgt then cw
              else (scopes0.getD (i - 2) default).beginBlock)) := by
  intro n
  induction n with
  | zero => intro scopes scopes0 f src _; rfl
  | succ n ih =>
    intro scopes scopes0 f src hbl
    by_cases h : tgt ≤ n
    · simp only [runChain]
      rw [if_pos h]
      simp only []
      rw [descRange_cons h, List.map_cons]
      have hnext : (if n = tgt then cw
          else (scopes.getD (n - 1) default).beginBlock) =
          (if n + 1 - 1 = tgt then cw
          else (scopes0.getD (n + 1 - 2) default).beginBlock) := by
        simp only [Nat.add_sub_cancel]
        by_cases hnt : n = tgt
        · simp [hnt]
        · rw [if_neg hnt, if_neg hnt]
          unfold CleanupScope.beginBlock
          rw [hbl (n - 1)]
          have h12 : n + 1 - 2 = n - 1 := by omega
          rw [h12]
      rw [hnext]
      congr 1
      exact ih _ scopes0 _ _ (fun j => by
        rw [getD_blocks_set (run_blocks _ _ _ _) j]
        exact hbl j)
    · simp only [runChain]
      rw [if_neg h, descRange_nil (by omega)]
      rfl

theorem getD_endBlock_set {l : List CleanupScope} {i : Nat} {a : CleanupScope}
    (h : a.blocks = (l.getD i default).blocks) :
    ∀ j, ((l.set i a).getD j default).endBlock = (l.getD j default).endBlock := by
  intro j
  unfold CleanupScope.endBlock
  rw [getD_blocks_set h j]

theorem runChain_lookupTerm (tgt : Nat) (cw : BlockId) :
    ∀ (n : Nat) (scopes : List CleanupScope) (f : FuncState) (src : BlockId)
      (x : BlockId),
      (∀ i, i < n → (scopes.getD i default).endBlock ≠ x) →
      (runChain tgt cw n scopes f src).2.1.lookupTerm x = f.lookupTerm x := by
  intro n
  induction n with
  | zero => intro scopes f src x _; rfl
  | succ n ih =>
    intro scopes f src x hend
    by_cases h : tgt ≤ n
    · simp only [runChain]
      rw [if_pos h]
      simp only []
      rw [ih _ _ _ _ (fun i hi => by
        rw [getD_endBlock_set (run_blocks _ _ _ _) i]
        exact hend i (Nat.lt_succ_of_lt hi))]
      exact run_lookupTerm_ne _ _ _ _ (hend n (Nat.lt_succ_self n))
    · simp only [runChain]
      rw [if_neg h]

/-- C1: for every cleanup-scope stack of current depth D and target cursor
t with t <= D, runCleanups(t, continueWith) terminates the current block
with a branch chain that runs the cleanup scopes at depths D, D-1, ...,
t+1 exactly once each, in that strictly descending innermost-first order,
with each cleanup's continuation being the entry of the next-outer cleanup
and the last one reaching continueWith; no depth in that range is skipped
or repeated.  (The side condition asks that the block being terminated is
not the end block of an active cleanup scope.) -/
theorem claim_C1 (st : TryCatchFinallyScopes) (tgt : Nat) (cw : BlockId)
    (h : tgt ≤ st.currentCleanupScope)
    (h2 : ∀ i, i < st.currentCleanupScope →
      (st.cleanupScopes.getD i default).endBlock ≠ st.currentBlock) :
    (st.runCleanups tgt cw).2 =
      expectedChain st.cleanupScopes tgt cw st.currentCleanupScope ∧
    ((st.runCleanups tgt cw).2).map Prod.fst =
      descRange tgt st.currentCleanupScope ∧
    (((st.runCleanups tgt cw).2).map Prod.fst).Nodup ∧
    (∀ k, k ∈ ((st.runCleanups tgt cw).2).map Prod.fst ↔
      tgt < k ∧ k ≤ st.currentCleanupScope) ∧
    (st.runCleanups tgt cw).1.currentCleanupScope = st.currentCleanupScope ∧
    (st.runCleanups tgt cw).1.func.lookupTerm st.currentBlock =
      (if st.currentCleanupScope = tgt then Terminator.br cw
       else Terminator.br
         ((st.cleanupScopes.getD (st.currentCleanupScope - 1)
            default)).beginBlock) := by
  by_cases hd : st.currentCleanupScope = tgt
  · have hres : st.runCleanups tgt cw =
        ({ st with func := st.func.setTerm st.currentBlock (Terminator.br cw) },
         []) := by
      unfold TryCatchFinallyScopes.runCleanups
        TryCatchFinallyScopes.runCleanupsFrom
      rw [if_pos hd]
    rw [hres]
    refine ⟨?_, ?_, by simp, ?_,
      by simp [TryCatchFinallyScopes.currentCleanupScope], ?_⟩
    · unfold expectedChain
      rw [descRange_nil (Nat.le_of_eq hd)]
      rfl
    · simp only [List.map_nil]
      exact (descRange_nil (Nat.le_of_eq hd)).symm
    · intro k
      simp only [List.map_nil, List.not_mem_nil, false_iff]
      rintro ⟨hk1, hk2⟩
      rw [hd] at hk2
      exact Nat.lt_irrefl k (Nat.lt_of_le_of_lt hk2 hk1)
    · rw [if_pos hd]
      exact FuncState.lookupTerm_setTerm_self _ _ _
  · have hres : st.runCleanups tgt cw =
        ({ st with
            cleanupScopes := (runChain tgt cw st.currentCleanupScope
              st.cleanupScopes
              (st.func.setTerm st.currentBlock (Terminator.br
                ((st.cleanupScopes.getD (st.currentCleanupScope - 1)
                  default)).beginBlock))
              st.currentBlock).1,
            func := (runChain tgt cw st.currentCleanupScope st.cleanupScopes
              (st.func.setTerm st.currentBlock (Terminator.br
                ((st.cleanupScopes.getD (st.currentCleanupScope - 1)
                  default)).beginBlock))
              st.currentBlock).2.1 },
         (runChain tgt cw st.currentCleanupScope st.cleanupScopes
            (st.func.setTerm st.currentBlock (Terminator.br
              ((st.cleanupScopes.getD (st.currentCleanupScope - 1)
                default)).beginBlock))
            st.currentBlock).2.2) := by
      unfold TryCatchFinallyScopes.runCleanups
        TryCatchFinallyScopes.runCleanupsFrom
      rw [if_neg hd]
    rw [hres]
    have htrace := runChain_trace tgt cw st.currentCleanupScope
      st.cleanupScopes st.cleanupScopes
      (st.func.setTerm st.currentBlock (Terminator.br
        ((st.cleanupScopes.getD (st.currentCleanupScope - 1)
          default)).beginBlock))
      st.currentBlock (fun j => rfl)
    refine ⟨htrace, ?_, ?_, ?_, ?_, ?_⟩
    · rw [htrace, List.map_map]
      have : (Prod.fst ∘ fun i => ((i : Nat),
          if i - 1 = tgt then cw
          else (st.cleanupScopes.getD (i - 2) default).beginBlock)) = id := by
        funext i
        rfl
      rw [this, List.map_id]
    · rw [htrace, List.map_map]
      have : (Prod.fst ∘ fun i => ((i : Nat),
          if i - 1 = tgt then cw
          else (st.cleanupScopes.getD (i - 2) default).beginBlock)) = id := by
        funext i
        rfl
      rw [this, List.map_id]
      exact descRange_nodup tgt _
    · intro k
      rw [htrace, List.map_map]
      have : (Prod.fst ∘ fun i => ((i : Nat),
          if i - 1 = tgt then cw
          else (st.cleanupScopes.getD (i - 2) default).beginBlock)) = id := by
        funext i
        rfl
      rw [this, List.map_id]
      exact mem_descRange
    · show (runChain tgt cw st.currentCleanupScope st.cleanupScopes _ _).1.length
        = st.currentCleanupScope
      rw [runChain_length]
      rfl
    · rw [if_neg hd]
      show (runChain tgt cw st.currentCleanupScope st.cleanupScopes _
        _).2.1.lookupTerm st.currentBlock = _
      rw [runChain_lookupTerm tgt cw st.currentCleanupScope st.cleanupScopes
        _ _ _ h2]
      exact FuncState.lookupTerm_setTerm_self _ _ _

/-- Witness for C1 at the concrete two-scope state, leaving to depth 0. -/
theorem claim_C1_witness :
    (sampleState.runCleanups 0 17).2 =
      expectedChain sampleState.cleanupScopes 0 17
        sampleState.currentCleanupScope :=
  (claim_C1 sampleState 0 17 (by decide) (by decide)).1

/-! Lemmas about sparse per-depth lists and goto resolution. -/

theorem getD_setExt_self (pad : α) :
    ∀ (l : List α) (i : Nat) (v : α), (setExt pad l i v).getD i pad = v := by
  intro l
  induction l with
  | nil =>
    intro i
    induction i with
    | zero => intro v; rfl
    | succ n ihn => intro v; simpa [setExt] using ihn v
  | cons x xs ih =>
    intro i
    cases i with
    | zero => intro v; rfl
    | succ n => intro v; simpa [setExt] using ih n v

theorem getD_setExt_ne (pad : α) :
    ∀ (l : List α) (i j : Nat) (v : α), j ≠ i →
      (setExt pad l i v).getD j pad = l.getD j pad := by
  intro l
  induction l with
  | nil =>
    intro i
    induction i with
    | zero =>
      intro j v hj
      cases j with
      | zero => exact absurd rfl hj
      | succ m => simp [setExt]
    | succ n ihn =>
      intro j v hj
      cases j with
      | zero => simp [setExt]
      | succ m =>
        have := ihn m v (fun hh => hj (by rw [hh]))
        simpa [setExt] using this
  | cons x xs ih =>
    intro i
    cases i with
    | zero =>
      intro j v hj
      cases j with
      | zero => exact absurd rfl hj
      | succ m => simp [setExt]
    | succ n =>
      intro j v hj
      cases j with
      | zero => simp [setExt]
      | succ m =>
        have := ih n m v (fun hh => hj (by rw [hh]))
        simpa [setExt] using this

theorem runCleanupsFrom_gotos (st : TryCatchFinallyScopes) (G L : Nat)
    (src cw : BlockId) :
    (st.runCleanupsFrom G L src cw).1.unresolvedGotos = st.unresolvedGotos := by
  unfold TryCatchFinallyScopes.runCleanupsFrom
  by_cases h : G = L
  · rw [if_pos h]
  · rw [if_neg h]

theorem runCleanupsFrom_blocks (st : TryCatchFinallyScopes) (G L : Nat)
    (src cw : BlockId) :
    ∀ j, ((st.runCleanupsFrom G L src cw).1.cleanupScopes.getD j
        default).blocks = (st.cleanupScopes.getD j default).blocks := by
  intro j
  unfold TryCatchFinallyScopes.runCleanupsFrom
  by_cases h : G = L
  · rw [if_pos h]
  · rw [if_neg h]
    exact runChain_blocks L cw G st.cleanupScopes _ _ j

theorem runCleanupsFrom_len (st : TryCatchFinallyScopes) (G L : Nat)
    (src cw : BlockId) :
    (st.runCleanupsFrom G L src cw).1.cleanupScopes.length =
      st.cleanupScopes.length := by
  unfold TryCatchFinallyScopes.runCleanupsFrom
  by_cases h : G = L
  · rw [if_pos h]
  · rw [if_neg h]
    exact runChain_length L cw G st.cleanupScopes _ _

theorem runCleanupsFrom_trace (scopes0 : List CleanupScope)
    (st : TryCatchFinallyScopes) (G L : Nat) (src cw : BlockId)
    (hbl : ∀ j, (st.cleanupScopes.getD j default).blocks =
      (scopes0.getD j default).blocks) :
    (st.runCleanupsFrom G L src cw).2 = expectedChain scopes0 L cw G := by
  unfold TryCatchFinallyScopes.runCleanupsFrom
  by_cases h : G = L
  · rw [if_pos h]
    unfold expectedChain
    rw [descRange_nil (Nat.le_of_eq h)]
    rfl
  · rw [if_neg h]
    exact runChain_trace L cw G st.cleanupScopes scopes0 _ _ hbl

namespace TryCatchFinallyScopes

theorem resolveList_facts (lv : Nat) (tgt : BlockId) (G : Nat)
    (scopes0 : List CleanupScope) :
    ∀ (gjs : List GotoJump) (st : TryCatchFinallyScopes),
      (∀ j, (st.cleanupScopes.getD j default).blocks =
        (scopes0.getD j default).blocks) →
      (∀ j, ((resolveList lv tgt G gjs st).1.cleanupScopes.getD j
          default).blocks = (scopes0.getD j default).blocks) ∧
      (resolveList lv tgt G gjs st).1.unresolvedGotos = st.unresolvedGotos ∧
      (∀ e ∈ (resolveList lv tgt G gjs st).2,
        e.2.1 = G ∧ e.1 ∈ gjs ∧ e.2.2 = expectedChain scopes0 lv tgt G) ∧
      (∀ g ∈ gjs, ∃ tr, (g, G, tr) ∈ (resolveList lv tgt G gjs st).2) := by
  intro gjs
  induction gjs with
  | nil =>
    intro st hbl
    refine ⟨hbl, rfl, ?_, ?_⟩
    · intro e he; cases he
    · intro g hg; cases hg
  | cons gj gjs ih =>
    intro st hbl
    have hbl1 : ∀ j, ((st.runCleanupsFrom G lv gj.sourceBlock
        tgt).1.cleanupScopes.getD j default).blocks =
        (scopes0.getD j default).blocks := by
      intro j
      rw [runCleanupsFrom_blocks]
      exact hbl j
    have IH := ih (st.runCleanupsFrom G lv gj.sourceBlock tgt).1 hbl1
    have hres : resolveList lv tgt G (gj :: gjs) st =
        ((resolveList lv tgt G gjs
            (st.runCleanupsFrom G lv gj.sourceBlock tgt).1).1,
         (gj, G, (st.runCleanupsFrom G lv gj.sourceBlock tgt).2) ::
           (resolveList lv tgt G gjs
             (st.runCleanupsFrom G lv gj.sourceBlock tgt).1).2) := rfl
    rw [hres]
    refine ⟨IH.1, ?_, ?_, ?_⟩
    · rw [IH.2.1, runCleanupsFrom_gotos]
    · intro e he
      rcases List.mem_cons.mp he with he | he
      · subst he
        exact ⟨rfl, List.mem_cons_self _ _,
          runCleanupsFrom_trace scopes0 st G lv _ tgt hbl⟩
      · have := IH.2.2.1 e he
        exact ⟨this.1, List.mem_cons_of_mem _ this.2.1, this.2.2⟩
    · intro g hg
      rcases List.mem_cons.mp hg with hg | hg
      · subst hg
        exact ⟨(st.runCleanupsFrom G lv g.sourceBlock tgt).2,
          List.mem_cons_self _ _⟩
      · obtain ⟨tr, htr⟩ := IH.2.2.2 g hg
        exact ⟨tr, List.mem_cons_of_mem _ htr⟩

theorem resolveUpTo_facts (lv : Nat) (labelName : Nat) (tgt : BlockId)
    (scopes0 : List CleanupScope) :
    ∀ (n : Nat) (st : TryCatchFinallyScopes),
      (∀ j, (st.cleanupScopes.getD j default).blocks =
        (scopes0.getD j default).blocks) →
      (∀ j, ((resolveUpTo lv labelName tgt n st).1.cleanupScopes.getD j
          default).blocks = (scopes0.getD j default).blocks) ∧
      (∀ j, n ≤ j →
        (resolveUpTo lv labelName tgt n st).1.unresolvedGotos.getD j [] =
          st.unresolvedGotos.getD j []) ∧
      (∀ e ∈ (resolveUpTo lv labelName tgt n st).2,
        e.1.targetLabel = labelName ∧ e.2.1 < n ∧
        e.2.2 = expectedChain scopes0 lv tgt e.2.1) ∧
      (∀ G g, G < n → g ∈ st.unresolvedGotos.getD G [] →
        g.targetLabel = labelName →
        ∃ tr, (g, G, tr) ∈ (resolveUpTo lv labelName tgt n st).2) := by
  intro n
  induction n with
  | zero =>
    intro st hbl
    refine ⟨hbl, fun j _ => rfl, ?_, ?_⟩
    · intro e he; cases he
    · intro G g hG _ _; cases hG
  | succ n ih =>
    intro st hbl
    obtain ⟨ih1, ih2, ih3, ih4⟩ := ih st hbl
    have hpend : (resolveUpTo lv labelName tgt n st).1.unresolvedGotos.getD n []
        = st.unresolvedGotos.getD n [] := ih2 n (Nat.le_refl n)
    have hbl2 : ∀ j, (({ (resolveUpTo lv labelName tgt n st).1 with
        unresolvedGotos := setExt []
          (resolveUpTo lv labelName tgt n st).1.unresolvedGotos n
          (((resolveUpTo lv labelName tgt n st).1.unresolvedGotos.getD n
            []).filter (fun gj => gj.targetLabel ≠ labelName)) }
          : TryCatchFinallyScopes).cleanupScopes.getD j default).blocks =
        (scopes0.getD j default).blocks := ih1
    have hlist := resolveList_facts lv tgt n scopes0
      (((resolveUpTo lv labelName tgt n st).1.unresolvedGotos.getD n
        []).filter (fun gj => gj.targetLabel = labelName))
      _ hbl2
    have hres : resolveUpTo lv labelName tgt (n + 1) st =
        ((resolveList lv tgt n
            (((resolveUpTo lv labelName tgt n st).1.unresolvedGotos.getD n
              []).filter (fun gj => gj.targetLabel = labelName))
            { (resolveUpTo lv labelName tgt n st).1 with
              unresolvedGotos := setExt []
                (resolveUpTo lv labelName tgt n st).1.unresolvedGotos n
                (((resolveUpTo lv labelName tgt n st).1.unresolvedGotos.getD n
                  []).filter (fun gj => gj.targetLabel ≠ labelName)) }).1,
         (resolveUpTo lv labelName tgt n st).2 ++
           (resolveList lv tgt n
             (((resolveUpTo lv labelName tgt n st).1.unresolvedGotos.getD n
               []).filter (fun gj => gj.targetLabel = labelName))
             { (resolveUpTo lv labelName tgt n st).1 with
               unresolvedGotos := setExt []
                 (resolveUpTo lv labelName tgt n st).1.unresolvedGotos n
                 (((resolveUpTo lv labelName tgt n st).1.unresolvedGotos.getD n
                   []).filter (fun gj => gj.targetLabel ≠ labelName)) }).2)
        := rfl
    rw [hres]
    refine ⟨hlist.1, ?_, ?_, ?_⟩
    · intro j hj
      have hne : j ≠ n := by omega
      rw [hlist.2.1]
      show (setExt [] _ n _).getD j [] = _
      rw [getD_setExt_ne [] _ n j _ hne]
      exact ih2 j (by omega)
    · intro e he
      rcases List.mem_append.mp he with he | he
      · have := ih3 e he
        exact ⟨this.1, Nat.lt_succ_of_lt this.2.1, this.2.2⟩
      · have := hlist.2.2.1 e he
        have hlab : e.1.targetLabel = labelName := by
          have := List.mem_filter.mp this.2.1
          simpa using this.2
        exact ⟨hlab, by rw [this.1]; exact Nat.lt_succ_self n,
          by rw [this.1]; exact this.2.2⟩
    · intro G g hG hgmem hglab
      rcases Nat.lt_succ_iff_lt_or_eq.mp hG with hG | hG
      · obtain ⟨tr, htr⟩ := ih4 G g hG hgmem hglab
        exact ⟨tr, List.mem_append.mpr (Or.inl htr)⟩
      · subst hG
        have hgm2 : g ∈ ((resolveUpTo lv labelName tgt G
            st).1.unresolvedGotos.getD G []).filter
            (fun gj => gj.targetLabel = labelName) := by
          rw [List.mem_filter]
          refine ⟨?_, by simpa using hglab⟩
          rw [ih2 G (Nat.le_refl G)]
          exact hgmem
        obtain ⟨tr, htr⟩ := hlist.2.2.2 g hgm2
        exact ⟨tr, List.mem_append.mpr (Or.inr htr)⟩

end TryCatchFinallyScopes

/-- C2: a goto registered via registerUnresolvedGoto is recorded under the
cleanup depth current at the goto site; when tryResolveGotos(label,
actualTarget) later runs at the label's depth L, every matching pending
record (searched across all depths) is resolved, and each resolved
record's path is the cleanup chain for the depths strictly between its
recorded depth G and L, innermost-first, ending at the target; with no
cleanups between the two depths the machinery wires the source block
directly to the target and runs nothing. -/
theorem claim_C2 (st : TryCatchFinallyScopes) (labelName : Nat)
    (tgt : BlockId) :
    (∀ loc lbl,
      (st.registerUnresolvedGoto loc lbl).unresolvedGotos.getD
          st.currentCleanupScope [] =
        st.unresolvedGotos.getD st.currentCleanupScope [] ++
          [⟨loc, st.currentBlock, st.func.nextId, lbl⟩]) ∧
    (∀ g G, G < st.unresolvedGotos.length →
      g ∈ st.unresolvedGotos.getD G [] → g.targetLabel = labelName →
      ∃ tr, (g, G, tr) ∈ (st.tryResolveGotos labelName tgt).2) ∧
    (∀ g G tr, (g, G, tr) ∈ (st.tryResolveGotos labelName tgt).2 →
      g.targetLabel = labelName ∧
      tr = expectedChain st.cleanupScopes st.currentCleanupScope tgt G ∧
      tr.map Prod.fst = descRange st.currentCleanupScope G) ∧
    (∀ srcB,
      (st.runCleanupsFrom st.currentCleanupScope st.currentCleanupScope srcB
        tgt).1.func.lookupTerm srcB = Terminator.br tgt ∧
      (st.runCleanupsFrom st.currentCleanupScope st.currentCleanupScope srcB
        tgt).2 = []) := by
  have hfacts := TryCatchFinallyScopes.resolveUpTo_facts
    st.currentCleanupScope labelName tgt st.cleanupScopes
    st.unresolvedGotos.length st (fun j => rfl)
  refine ⟨?_, ?_, ?_, ?_⟩
  · intro loc lbl
    show (setExt [] st.unresolvedGotos st.currentCleanupScope
      (st.unresolvedGotos.getD st.currentCleanupScope [] ++
        [⟨loc, st.currentBlock, st.func.nextId, lbl⟩])).getD
      st.currentCleanupScope [] = _
    rw [getD_setExt_self]
  · intro g G hG hmem hlab
    exact hfacts.2.2.2 G g hG hmem hlab
  · intro g G tr hmem
    have hthis := hfacts.2.2.1 (g, G, tr) hmem
    have htr : tr = expectedChain st.cleanupScopes st.currentCleanupScope
        tgt G := hthis.2.2
    refine ⟨hthis.1, htr, ?_⟩
    rw [htr]
    unfold expectedChain
    rw [List.map_map]
    have hmapid : (Prod.fst ∘ fun i => ((i : Nat),
        if i - 1 = st.currentCleanupScope then tgt
        else (st.cleanupScopes.getD (i - 2) default).beginBlock)) = id := by
      funext i
      rfl
    rw [hmapid, List.map_id]
  · intro srcB
    constructor
    · unfold TryCatchFinallyScopes.runCleanupsFrom
      rw [if_pos rfl]
      exact FuncState.lookupTerm_setTerm_self _ _ _
    · unfold TryCatchFinallyScopes.runCleanupsFrom
      rw [if_pos rfl]

/-- Witness for C2: the registration half at the concrete state. -/
theorem claim_C2_witness :
    (sampleState.registerUnresolvedGoto 0 15).unresolvedGotos.getD
        sampleState.currentCleanupScope [] =
      sampleState.unresolvedGotos.getD sampleState.currentCleanupScope [] ++
        [⟨0, sampleState.currentBlock, sampleState.func.nextId, 15⟩] :=
  (claim_C2 sampleState 15 30).1 0 15

/-! Lemmas for landing-pad code evaluation. -/

theorem evalPad_cleanups (m : Nat → Bool) :
    ∀ (l : List Nat) (k : PadCode),
      evalPad m (l.foldr (fun i acc => PadCode.cleanup i acc) k) =
        (l ++ (evalPad m k).1, (evalPad m k).2) := by
  intro l
  induction l with
  | nil => intro k; simp
  | cons i l ih =>
    intro k
    simp only [List.foldr_cons, evalPad, ih, List.cons_append]

theorem evalPad_cleanupsThen (m : Nat → Bool) (d tgt : Nat) (k : PadCode) :
    evalPad m (cleanupsThen d tgt k) =
      (descRange tgt d ++ (evalPad m k).1, (evalPad m k).2) :=
  evalPad_cleanups m (descRange tgt d) k

theorem evalPad_testsThen (m : Nat → Bool) :
    ∀ (cbs : List CatchBlock) (k : PadCode),
      evalPad m (testsThen cbs k) =
        (match cbs.find? (fun cb => m cb.classInfoPtr) with
         | some cb => ([], cb.bodyBB)
         | none => evalPad m k) := by
  intro cbs
  induction cbs with
  | nil => intro k; rfl
  | cons cb cbs ih =>
    intro k
    show evalPad m (PadCode.test cb.classInfoPtr cb.bodyBB (testsThen cbs k)) = _
    rw [List.find?_cons]
    by_cases hm : m cb.classInfoPtr
    · simp only [evalPad, hm, if_true]
    · simp only [evalPad, hm, if_false]
      exact ih k

/-- C3: the landing pad built at cleanup depth d over the active try/catch
stack implements exactly the specified dispatch: it runs the cleanups
between the throw site and the nearest enclosing try/catch scope, tests
that scope's catch descriptors in declared order with the first match
winning (branching to that handler), otherwise runs the cleanups one
try/catch level further out and repeats, and with no try/catch scope left
it runs the remaining cleanups and branches to the resume-unwind block,
which is a function-wide singleton. -/
theorem claim_C3 (m : Nat → Bool) (tcs : List TryCatchScope) (d : Nat)
    (rB : BlockId) :
    evalPad m (emitLandingPadCode rB tcs d) = dispatchSem m tcs d rB ∧
    (∀ st : TryCatchFinallyScopes,
      (st.getOrCreateResumeUnwindBlock).1.getOrCreateResumeUnwindBlock =
        ((st.getOrCreateResumeUnwindBlock).1,
         (st.getOrCreateResumeUnwindBlock).2)) := by
  constructor
  · induction tcs generalizing d with
    | nil =>
      show evalPad m (cleanupsThen d 0 (PadCode.resume rB)) = _
      rw [evalPad_cleanupsThen]
      show (descRange 0 d ++ [], rB) = (descRange 0 d, rB)
      rw [List.append_nil]
    | cons tc rest ih =>
      show evalPad m (cleanupsThen d tc.cleanupScope
        (testsThen tc.catchBlocks
          (emitLandingPadCode rB rest tc.cleanupScope))) = _
      rw [evalPad_cleanupsThen, evalPad_testsThen]
      show _ = dispatchSem m (tc :: rest) d rB
      unfold dispatchSem
      cases hf : tc.catchBlocks.find? (fun cb => m cb.classInfoPtr) with
      | some cb => simp [hf]
      | none =>
        simp only [hf]
        rw [ih tc.cleanupScope]
  · intro st
    unfold TryCatchFinallyScopes.getOrCreateResumeUnwindBlock
    cases h : st.resumeUnwindBlock with
    | some b => simp [h]
    | none => simp [h]

/-- C9: popCleanups(t) only removes the cleanup scopes above depth t
(currentCleanupScope() afterwards equals t) and emits no control flow:
the function state (block graph, terminators) and every other field of
the orchestrator are unchanged. -/
theorem claim_C9 (st : TryCatchFinallyScopes) (t : CleanupCursor)
    (h : t ≤ st.currentCleanupScope) :
    (st.popCleanups t).currentCleanupScope = t ∧
    (st.popCleanups t).cleanupScopes = st.cleanupScopes.take t ∧
    (st.popCleanups t).func = st.func ∧
    (st.popCleanups t).tryCatchScopes = st.tryCatchScopes ∧
    (st.popCleanups t).unresolvedGotos = st.unresolvedGotos ∧
    (st.popCleanups t).landingPads = st.landingPads ∧
    (st.popCleanups t).ehPtrSlot = st.ehPtrSlot ∧
    (st.popCleanups t).ehSelectorSlot = st.ehSelectorSlot ∧
    (st.popCleanups t).resumeUnwindBlock = st.resumeUnwindBlock ∧
    (st.popCleanups t).currentBlock = st.currentBlock := by
  refine ⟨?_, rfl, rfl, rfl, rfl, rfl, rfl, rfl, rfl, rfl⟩
  show (st.cleanupScopes.take t).length = t
  rw [List.length_take]
  have hlen : (t : Nat) ≤ st.cleanupScopes.length := h
  exact Nat.min_eq_left hlen

/-- Witness for C9 at the concrete two-scope state. -/
theorem claim_C9_witness :
    (sampleState.popCleanups 1).currentCleanupScope = 1 ∧
    (sampleState.popCleanups 1).func = sampleState.func :=
  ⟨(claim_C9 sampleState 1 (by decide)).1,
   (claim_C9 sampleState 1 (by decide)).2.2.1⟩

/-- C8: isCatchingNonExceptions() returns true when the scope has a
handler whose caught type lies outside the standard exception hierarchy
(even if it is the only handler), returns false when every handler
catches only standard exceptions, and is simply the flag precomputed at
scope construction. -/
theorem claim_C8 (stmt : TryCatchStatement) (cursor : CleanupCursor) :
    ((∃ c ∈ stmt.catches, exceptionClassId ∉ c.typeAncestors) →
      (TryCatchScope.make stmt cursor).isCatchingNonExceptions = true) ∧
    ((∀ c ∈ stmt.catches, exceptionClassId ∈ c.typeAncestors) →
      (TryCatchScope.make stmt cursor).isCatchingNonExceptions = false) ∧
    (TryCatchScope.make stmt cursor).isCatchingNonExceptions =
      (TryCatchScope.make stmt cursor).catchesNonExceptions ∧
    (TryCatchScope.make stmt cursor).isCatchingNonExceptions =
      stmt.catches.any CatchClause.catchesNonException := by
  refine ⟨?_, ?_, rfl, rfl⟩
  · rintro ⟨c, hc, hnc⟩
    show stmt.catches.any CatchClause.catchesNonException = true
    rw [List.any_eq_true]
    refine ⟨c, hc, ?_⟩
    unfold CatchClause.catchesNonException
    simpa using hnc
  · intro hall
    show stmt.catches.any CatchClause.catchesNonException = false
    rw [List.any_eq_false]
    intro c hc
    unfold CatchClause.catchesNonException
    simpa using hall c hc

/-- Witness for C8: a scope whose only handler catches a throwable outside
the standard exception hierarchy, and one whose handlers are all
standard. -/
theorem claim_C8_witness :
    (TryCatchScope.make ⟨[⟨5, [3], 6, none⟩]⟩ 0).isCatchingNonExceptions =
      true ∧
    (TryCatchScope.make ⟨[⟨5, [exceptionClassId, 3], 6, none⟩]⟩
      0).isCatchingNonExceptions = false :=
  ⟨(claim_C8 ⟨[⟨5, [3], 6, none⟩]⟩ 0).1
      ⟨⟨5, [3], 6, none⟩, by decide, by decide⟩,
   (claim_C8 ⟨[⟨5, [exceptionClassId, 3], 6, none⟩]⟩ 0).2.1 (by decide)⟩

/-! Lemmas for the landing-pad cache. -/

theorem getOrCreateResumeUnwindBlock_facts (st : TryCatchFinallyScopes) :
    (st.getOrCreateResumeUnwindBlock).1.landingPads = st.landingPads ∧
    (st.getOrCreateResumeUnwindBlock).1.cleanupScopes = st.cleanupScopes ∧
    st.func.nextId ≤ (st.getOrCreateResumeUnwindBlock).1.func.nextId := by
  unfold TryCatchFinallyScopes.getOrCreateResumeUnwindBlock
  cases h : st.resumeUnwindBlock with
  | some b => exact ⟨rfl, rfl, Nat.le_refl _⟩
  | none =>
    refine ⟨rfl, rfl, ?_⟩
    show st.func.nextId ≤ st.func.nextId + 1
    exact Nat.le_succ _

theorem getLandingPad_cached {st : TryCatchFinallyScopes} {b : BlockId}
    (hc : st.landingPads.getD st.currentCleanupScope none = some b) :
    st.getLandingPad = (st, b) := by
  simp only [TryCatchFinallyScopes.getLandingPad, hc]

theorem getLandingPad_new {st : TryCatchFinallyScopes}
    (hc : st.landingPads.getD st.currentCleanupScope none = none) :
    st.getLandingPad =
      ({ (st.getOrCreateResumeUnwindBlock).1 with
          func := { (st.getOrCreateResumeUnwindBlock).1.func with
            nextId := (st.getOrCreateResumeUnwindBlock).1.func.nextId + 1 },
          landingPads := setExt none
            (st.getOrCreateResumeUnwindBlock).1.landingPads
            st.currentCleanupScope
            (some (st.getOrCreateResumeUnwindBlock).1.func.nextId) },
       (st.getOrCreateResumeUnwindBlock).1.func.nextId) := by
  simp only [TryCatchFinallyScopes.getLandingPad, hc]

/-- C7: two getLandingPad() calls with no intervening change to the scope
stacks return the same cached block (the second call returns the cached
one and leaves the state untouched); the cache is keyed strictly by depth
(entries at all other depths are untouched by a call), and any block
cached at a different depth is distinct from the returned one; these cache
properties are preserved by the call. -/
theorem claim_C7 (st : TryCatchFinallyScopes) (h : padCacheInv st) :
    (st.getLandingPad).1.getLandingPad =
      ((st.getLandingPad).1, (st.getLandingPad).2) ∧
    (st.getLandingPad).1.landingPads.getD st.currentCleanupScope none =
      some (st.getLandingPad).2 ∧
    (∀ d, d ≠ st.currentCleanupScope →
      (st.getLandingPad).1.landingPads.getD d none =
        st.landingPads.getD d none) ∧
    (∀ d b, d ≠ st.currentCleanupScope →
      (st.getLandingPad).1.landingPads.getD d none = some b →
      b ≠ (st.getLandingPad).2) ∧
    padCacheInv (st.getLandingPad).1 := by
  cases hc : st.landingPads.getD st.currentCleanupScope none with
  | some b =>
    rw [getLandingPad_cached hc]
    refine ⟨getLandingPad_cached hc, hc, fun d _ => rfl, ?_, h⟩
    intro d bd hd hbd
    exact h.2 d st.currentCleanupScope bd b hd hbd hc
  | none =>
    have hfacts := getOrCreateResumeUnwindBlock_facts st
    rw [getLandingPad_new hc]
    have hcur : ({ (st.getOrCreateResumeUnwindBlock).1 with
        func := { (st.getOrCreateResumeUnwindBlock).1.func with
          nextId := (st.getOrCreateResumeUnwindBlock).1.func.nextId + 1 },
        landingPads := setExt none
          (st.getOrCreateResumeUnwindBlock).1.landingPads
          st.currentCleanupScope
          (some (st.getOrCreateResumeUnwindBlock).1.func.nextId) }
        : TryCatchFinallyScopes).currentCleanupScope =
        st.currentCleanupScope := by
      show (st.getOrCreateResumeUnwindBlock).1.cleanupScopes.length =
        st.cleanupScopes.length
      rw [hfacts.2.1]
    have hcache : ∀ i, (setExt none
        (st.getOrCreateResumeUnwindBlock).1.landingPads
        st.currentCleanupScope
        (some (st.getOrCreateResumeUnwindBlock).1.func.nextId)).getD i none =
        (if i = st.currentCleanupScope
         then some (st.getOrCreateResumeUnwindBlock).1.func.nextId
         else st.landingPads.getD i none) := by
      intro i
      by_cases hi : i = st.currentCleanupScope
      · rw [if_pos hi, hi, getD_setExt_self]
      · rw [if_neg hi, getD_setExt_ne none _ _ _ _ hi, hfacts.1]
    refine ⟨?_, ?_, ?_, ?_, ?_, ?_⟩
    · rw [getLandingPad_cached (by rw [hcur, hcache, if_pos rfl])]
    · rw [hcache, if_pos rfl]
    · intro d hd
      rw [hcache, if_neg hd]
    · intro d bd hd hbd
      rw [hcache, if_neg hd] at hbd
      have hlt := h.1 d bd hbd
      have hle := hfacts.2.2
      intro heq
      rw [heq] at hlt
      exact absurd hlt (Nat.not_lt.mpr hle)
    · intro i bi hbi
      rw [hcache] at hbi
      show bi < (st.getOrCreateResumeUnwindBlock).1.func.nextId + 1
      by_cases hi : i = st.currentCleanupScope
      · rw [if_pos hi] at hbi
        have hbieq : bi = (st.getOrCreateResumeUnwindBlock).1.func.nextId := by
          simpa using hbi.symm
        rw [hbieq]
        exact Nat.lt_succ_self _
      · rw [if_neg hi] at hbi
        have hlt := h.1 i bi hbi
        have hle := hfacts.2.2
        exact Nat.lt_succ_of_lt (Nat.lt_of_lt_of_le hlt hle)
    · intro i j bi bj hij hbi hbj
      rw [hcache] at hbi hbj
      by_cases hi : i = st.currentCleanupScope
      · rw [if_pos hi] at hbi
        have hbieq : bi = (st.getOrCreateResumeUnwindBlock).1.func.nextId := by
          simpa using hbi.symm
        have hj : ¬(j = st.currentCleanupScope) := by
          rw [hi] at hij
          exact fun hh => hij hh.symm
        rw [if_neg hj] at hbj
        have hlt : bj < (st.getOrCreateResumeUnwindBlock).1.func.nextId :=
          Nat.lt_of_lt_of_le (h.1 j bj hbj) hfacts.2.2
        intro heq
        rw [hbieq] at heq
        rw [← heq] at hlt
        exact Nat.lt_irrefl _ hlt
      · rw [if_neg hi] at hbi
        by_cases hj : j = st.currentCleanupScope
        · rw [if_pos hj] at hbj
          have hbjeq : bj = (st.getOrCreateResumeUnwindBlock).1.func.nextId := by
            simpa using hbj.symm
          have hlt : bi < (st.getOrCreateResumeUnwindBlock).1.func.nextId :=
            Nat.lt_of_lt_of_le (h.1 i bi hbi) hfacts.2.2
          intro heq
          rw [hbjeq] at heq
          rw [heq] at hlt
          exact Nat.lt_irrefl _ hlt
        · rw [if_neg hj] at hbj
          exact h.2 i j bi bj hij hbi hbj

/-- Witness for C7: the cache holds the returned pad at the current depth
after a call on the concrete state, whose cache is empty. -/
theorem claim_C7_witness :
    (sampleState.getLandingPad).1.landingPads.getD
        sampleState.currentCleanupScope none =
      some (sampleState.getLandingPad).2 :=
  (claim_C7 sampleState (by
    constructor
    · intro i b hib
      have hn : sampleState.landingPads.getD i none = none := by
        show ([none, none] : List (Option BlockId)).getD i none = none
        cases i with
        | zero => rfl
        | succ n =>
          cases n with
          | zero => rfl
          | succ mm => rfl
      rw [hn] at hib
      cases hib
    · intro i j bi bj hij hbi hbj
      have hn : sampleState.landingPads.getD i none = none := by
        show ([none, none] : List (Option BlockId)).getD i none = none
        cases i with
        | zero => rfl
        | succ n =>
          cases n with
          | zero => rfl
          | succ mm => rfl
      rw [hn] at hbi
      cases hbi)).2.1

end TCF
